import Mathlib

/-!
Verification of the CASE prompt sampler (generate_case_prompt.py) and of the
workflow patch engine (apply_case_prompt.py).

Python dicts are modelled as insertion ordered association lists: lookup reads
the first entry carrying the key, an update rewrites that entry in place, and a
new key is appended at the end.  This matches dict semantics exactly on the
duplicate free key lists that Python dicts and JSON objects provide.
-/

section DictKit

variable {K V : Type} [DecidableEq K]

/-- Lookup of a key in an association list (Python dict.get). -/
def dget : List (K × V) → K → Option V
  | [], _ => none
  | p :: rest, k => if p.1 = k then some p.2 else dget rest k

/-- Lookup with a default value (Python dict.get with default). -/
def dgetD (l : List (K × V)) (k : K) (d : V) : V :=
  (dget l k).getD d

/-- Store of a key (Python dict setitem): the first entry carrying the key is
rewritten in place, a missing key is appended at the end. -/
def dset : List (K × V) → K → V → List (K × V)
  | [], k, v => [(k, v)]
  | p :: rest, k, v => if p.1 = k then (k, v) :: rest else p :: dset rest k v

/-- Store of several keys in order (Python dict.update). -/
def dsetMany (l : List (K × V)) (kvs : List (K × V)) : List (K × V) :=
  kvs.foldl (fun acc kv => dset acc kv.1 kv.2) l

/-- The keys of an association list, in order. -/
def dkeys (l : List (K × V)) : List K :=
  l.map Prod.fst

theorem dget_dset_self (l : List (K × V)) (k : K) (v : V) :
    dget (dset l k v) k = some v := by
  induction l with
  | nil => simp [dget, dset]
  | cons p rest ih =>
    by_cases h : p.1 = k
    · simp [dset, h, dget]
    · simp [dset, h, dget, ih]

theorem dget_dset_ne (l : List (K × V)) {k k2 : K} (v : V) (h : k2 ≠ k) :
    dget (dset l k v) k2 = dget l k2 := by
  have hk : ¬ k = k2 := fun hh => h hh.symm
  induction l with
  | nil =>
    simp only [dset, dget, hk, if_false]
  | cons p rest ih =>
    by_cases hp : p.1 = k
    · have hp2 : ¬ p.1 = k2 := fun hc => h (hc.symm.trans hp)
      simp only [dset, hp, if_pos, dget, hk, if_false, hp2]
    · simp only [dset, hp, if_false, if_neg, dget]
      by_cases hq : p.1 = k2
      · simp only [hq, if_pos]
      · simp only [hq, if_false, ih]

theorem dset_id {l : List (K × V)} {k : K} {v : V} (h : dget l k = some v) :
    dset l k v = l := by
  induction l with
  | nil => simp [dget] at h
  | cons p rest ih =>
    by_cases hp : p.1 = k
    · simp only [dget, hp, if_pos] at h
      obtain ⟨rfl⟩ := Option.some.injEq _ _ ▸ h
      cases p with
      | mk a b =>
        simp only at hp
        simp [dset, hp]
    · simp only [dget, hp, if_neg, if_false] at h
      simp [dset, hp, ih h]

theorem dget_mem {l : List (K × V)} {k : K} {v : V} (h : dget l k = some v) :
    (k, v) ∈ l := by
  induction l with
  | nil => simp [dget] at h
  | cons p rest ih =>
    by_cases hp : p.1 = k
    · simp only [dget, hp, if_pos] at h
      cases p with
      | mk a b =>
        simp only at hp
        simp only [Option.some.injEq] at h
        subst hp
        subst h
        exact List.mem_cons_self _ _
    · simp only [dget, hp, if_neg, if_false] at h
      exact List.mem_cons_of_mem _ (ih h)

theorem mem_dget {l : List (K × V)} {k : K} {v : V}
    (hnd : (dkeys l).Nodup) (h : (k, v) ∈ l) : dget l k = some v := by
  induction l with
  | nil => simp at h
  | cons p rest ih =>
    simp only [dkeys, List.map_cons, List.nodup_cons] at hnd
    rcases List.mem_cons.mp h with h1 | h2
    · subst h1
      simp [dget]
    · have hp : p.1 ≠ k := by
        intro hc
        apply hnd.1
        subst hc
        exact List.mem_map.mpr ⟨(p.1, v), h2, rfl⟩
      simp [dget, hp]
      exact ih hnd.2 h2

theorem dget_eq_none {l : List (K × V)} {k : K} :
    dget l k = none ↔ k ∉ dkeys l := by
  induction l with
  | nil => simp [dget, dkeys]
  | cons p rest ih =>
    by_cases hp : p.1 = k
    · constructor
      · intro h
        simp [dget, hp] at h
      · intro h
        exact absurd (by simp [dkeys, hp.symm]) h
    · constructor
      · intro h hmem
        simp only [dget, hp, if_false, if_neg] at h
        rcases List.mem_cons.mp hmem with h1 | h2
        · exact hp h1.symm
        · exact (ih.mp h) h2
      · intro h
        simp only [dget, hp, if_false, if_neg]
        exact ih.mpr fun hm => h (List.mem_cons_of_mem _ hm)

theorem dset_append {l : List (K × V)} {k : K} (v : V) (h : dget l k = none) :
    dset l k v = l ++ [(k, v)] := by
  induction l with
  | nil => simp [dset]
  | cons p rest ih =>
    by_cases hp : p.1 = k
    · simp [dget, hp] at h
    · simp only [dget, hp, if_neg, if_false] at h
      simp [dset, hp, ih h]

theorem dkeys_dset_of_some {l : List (K × V)} {k : K} {w : V} (v : V)
    (h : dget l k = some w) : dkeys (dset l k v) = dkeys l := by
  induction l with
  | nil => simp [dget] at h
  | cons p rest ih =>
    by_cases hp : p.1 = k
    · simp [dset, hp, dkeys]
    · simp only [dget, hp, if_neg, if_false] at h
      simp [dset, hp, dkeys] at *
      exact ih h

theorem dget_append_left {l l2 : List (K × V)} {k : K} {v : V}
    (h : dget l k = some v) : dget (l ++ l2) k = some v := by
  induction l with
  | nil => simp [dget] at h
  | cons p rest ih =>
    by_cases hp : p.1 = k
    · simp only [dget, hp, if_pos] at h
      simp [dget, hp, h]
    · simp only [dget, hp, if_neg, if_false] at h
      simp [dget, hp, ih h]

theorem dget_append_none {l l2 : List (K × V)} {k : K}
    (h : dget l k = none) : dget (l ++ l2) k = dget l2 k := by
  induction l with
  | nil => simp
  | cons p rest ih =>
    by_cases hp : p.1 = k
    · simp [dget, hp] at h
    · simp only [dget, hp, if_neg, if_false] at h
      simp [dget, hp, ih h]

theorem dsetMany_dget_ne {l : List (K × V)} {kvs : List (K × V)} {k : K}
    (h : ∀ kv ∈ kvs, kv.1 ≠ k) : dget (dsetMany l kvs) k = dget l k := by
  induction kvs generalizing l with
  | nil => simp [dsetMany]
  | cons kv rest ih =>
    have h1 : kv.1 ≠ k := h kv (List.mem_cons_self _ _)
    have h2 : ∀ kv2 ∈ rest, kv2.1 ≠ k := fun kv2 hm => h kv2 (List.mem_cons_of_mem _ hm)
    simp only [dsetMany, List.foldl_cons]
    rw [show (rest.foldl (fun acc p => dset acc p.1 p.2) (dset l kv.1 kv.2)) =
        dsetMany (dset l kv.1 kv.2) rest from rfl]
    rw [ih h2]
    exact dget_dset_ne _ _ (fun hc => h1 hc.symm)

theorem dsetMany_id {l : List (K × V)} {kvs : List (K × V)}
    (h : ∀ kv ∈ kvs, dget l kv.1 = some kv.2) : dsetMany l kvs = l := by
  induction kvs with
  | nil => simp [dsetMany]
  | cons kv rest ih =>
    have h1 := h kv (List.mem_cons_self _ _)
    simp only [dsetMany, List.foldl_cons, dset_id h1]
    exact ih fun kv2 hm => h kv2 (List.mem_cons_of_mem _ hm)

end DictKit

/-!
## Pool store (generate_case_prompt.py, _load_pools and merge_section)

A pool definitions document maps a blend mode name to a per section map from
subcategory key to candidate token list.  Merging walks the requested modes in
order and appends only unseen tokens, tracking per mode provenance.
-/

/-- A section: subcategory key mapped to the ordered candidate token list. -/
abbrev SecMap := List (String × List String)

/-- Per mode pool data: section name mapped to its section map. -/
abbrev CombMap := List (String × SecMap)

/-- Provenance: section name, then subcategory key, then mode name, mapped to
the tokens that mode contributed (the _sources table). -/
abbrev SrcMap := List (String × List (String × List (String × List String)))

/-- The top level sets table of the pool document: mode name to sections. -/
abbrev ModeSets := List (String × CombMap)

/-- Appending a single value only when unseen (the inner loop of merge_section
and of extend_unique in generate_prompt). -/
def insertValue (dest : List String) (v : String) : List String :=
  if v ∈ dest then dest else dest ++ [v]

/-- Appending each value of a list when unseen, in order. -/
def mergeValues (dest : List String) (vs : List String) : List String :=
  vs.foldl insertValue dest

/-- merge_section, combined side: fold the additions of one mode section into
the destination section, key by key. -/
def mergeSecComb (cs : SecMap) (additions : SecMap) : SecMap :=
  additions.foldl (fun cs kv => dset cs kv.1 (mergeValues (dgetD cs kv.1 []) kv.2)) cs

/-- merge_section, sources side: record which tokens the mode contributed for
each subcategory key. -/
def mergeSecSrc (ss : List (String × List (String × List String)))
    (additions : SecMap) (mode : String) : List (String × List (String × List String)) :=
  additions.foldl
    (fun ss kv =>
      dset ss kv.1 (dset (dgetD ss kv.1 []) mode (mergeValues (dgetD (dgetD ss kv.1 []) mode []) kv.2)))
    ss

/-- The pair of combined pool and provenance table built by _load_pools. -/
structure MergeSt where
  comb : CombMap
  srcs : SrcMap
deriving DecidableEq, Repr

/-- merge_section for one section name of one mode. -/
def mergeSection (st : MergeSt) (sectionName : String) (additions : SecMap)
    (mode : String) : MergeSt :=
  { comb := dset st.comb sectionName (mergeSecComb (dgetD st.comb sectionName []) additions)
    srcs := dset st.srcs sectionName (mergeSecSrc (dgetD st.srcs sectionName []) additions mode) }

/-- One full mode merged: every section of the mode data folded in order. -/
def mergeMode (st : MergeSt) (mode : String) (msections : CombMap) : MergeSt :=
  msections.foldl (fun st sv => mergeSection st sv.1 sv.2 mode) st

/-- The sampler error taxonomy of the two scripts (each raised as a distinct
terminal SystemExit or KeyError in the source). -/
inductive Err where
  | configuration (mode : String)
  | unknownPreset (name : String)
  | unknownGroup (name : String)
  | roleMismatch (id : Nat)
  | nodeNotFound (what : String)
  | dependencyMissing
  | missingArgument (what : String)
  | fileNotFound (path : String)
deriving DecidableEq, Repr

/-- The mode loop of _load_pools: look each requested mode up in the sets
table and merge it; an unknown mode aborts the load. -/
def mergeModes (sets : ModeSets) : List String → MergeSt → Except Err MergeSt
  | [], st => .ok st
  | m :: rest, st =>
    match dget sets m with
    | none => .error (.configuration m)
    | some msecs => mergeModes sets rest (mergeMode st m msecs)

/-- A style preset: per section extra tokens plus extra negative tokens.
Sections missing in the document default to the empty list (dict.get). -/
structure Preset where
  composition : List String := []
  action : List String := []
  subject : List String := []
  environment : List String := []
  negative : List String := []
deriving DecidableEq, Repr

/-- The pool definitions document: sets plus the verbatim copied tables. -/
structure PoolsDoc where
  sets : ModeSets
  negative_base : List String := []
  negative_optional : List (String × List String) := []
  style_presets : List (String × Preset) := []
deriving DecidableEq, Repr

/-- The merged pool handed to the sampler (the combined dict of _load_pools,
with the verbatim copied negative and preset tables). -/
structure Pools where
  combined : CombMap
  sources : SrcMap
  negative_base : List String := []
  negative_optional : List (String × List String) := []
  style_presets : List (String × Preset) := []
deriving DecidableEq, Repr

/-- _load_pools: default the mode list to the general mode, merge each mode
in order, copy the negative and preset tables verbatim. -/
def loadPools (doc : PoolsDoc) (modes : List String) : Except Err Pools :=
  let ms := if modes.isEmpty then ["general"] else modes
  match mergeModes doc.sets ms ⟨[], []⟩ with
  | .error e => .error e
  | .ok st =>
    .ok { combined := st.comb, sources := st.srcs,
          negative_base := doc.negative_base,
          negative_optional := doc.negative_optional,
          style_presets := doc.style_presets }

/-!
## Prompt sampler (generate_case_prompt.py, _pick_items through generate_prompt)

The Python sampler draws through the process global random module.  That
module is outside this repository; it is modelled from the spec as a
deterministic pseudo random stream: uniform choice without replacement picks a
position from the remaining population using the current state and steps the
state.  Seeding resets the state to a value computed from the seed alone.
-/

/-- The pseudo random generator state. -/
abbrev Rng := Nat

/-- Modelled from the spec: the process global random generator steps to a new
state after each draw (a linear congruential stand in for the library
generator, which is external to the repository). -/
def rngNext (g : Rng) : Rng :=
  (g * 1103515245 + 12345) % 2147483648

/-- Modelled from the spec: random.seed(seed) resets the generator state to a
value fully determined by the seed. -/
def seedRng (s : Int) : Rng :=
  (s.natAbs * 2654435761 + 97) % 2147483648

/-- Modelled from the spec: random.sample draws k elements from k distinct
positions of the population, without replacement of positions. -/
def sampleAux : Nat → Rng → List String → List String × Rng
  | 0, g, _ => ([], g)
  | _ + 1, g, [] => ([], g)
  | k + 1, g, x :: xs =>
    let l := x :: xs
    let i := g % l.length
    let pick := l.getD i x
    let rest := l.eraseIdx i
    let r := sampleAux k (rngNext g) rest
    (pick :: r.1, r.2)

/-- random.sample(population, k); call sites always satisfy k ≤ length. -/
def randomSample (g : Rng) (l : List String) (k : Nat) : List String × Rng :=
  sampleAux (min k l.length) g l

/-- _pick_items: a preference pass over the preferred candidates that also
occur in the option pool, then a fill pass over the options not yet chosen. -/
def pickItems (g : Rng) (options : List String) (count : Nat)
    (preferred : List String) : List String × Rng :=
  if count = 0 then ([], g) else
  let ap := preferred.filter (fun x => decide (x ∈ options))
  let pre :=
    if ap.isEmpty then (([] : List String), count, g)
    else
      let tk := min count ap.length
      let s := randomSample g ap tk
      (s.1, count - tk, s.2)
  let chosen := pre.1
  let count2 := pre.2.1
  let g1 := pre.2.2
  if count2 = 0 then (chosen, g1) else
  let remaining := options.filter (fun x => decide (x ∉ chosen))
  if remaining.isEmpty then (chosen, g1)
  else if remaining.length ≤ count2 then (chosen ++ remaining, g1)
  else
    let s := randomSample g1 remaining count2
    (chosen ++ s.1, s.2)

/-- _sample_section: walk the subcategories of a section in order, drawing
override count or default many tokens for each. -/
def sampleSection (g : Rng) (sec : SecMap) (overrides : List (String × Nat))
    (dflt : Nat) (preferred : SecMap) : List String × Rng :=
  sec.foldl
    (fun acc kv =>
      let count := dgetD overrides kv.1 dflt
      if count = 0 then acc
      else
        let pref := dgetD preferred kv.1 []
        let r := pickItems acc.2 kv.2 count pref
        (acc.1 ++ r.1, r.2))
    ([], g)

/-- build_preferred: for one section, concatenate the tokens every non default
mode contributed, keyed by subcategory; keys with no contribution are left
out. -/
def buildPreferred (sources : SrcMap) (preferredModes : List String)
    (sectionName : String) : SecMap :=
  if preferredModes.isEmpty then [] else
  (dgetD sources sectionName []).foldl
    (fun acc kv =>
      let sels := preferredModes.foldl (fun s m => s ++ dgetD kv.2 m []) []
      if sels.isEmpty then acc else acc ++ [(kv.1, sels)])
    []

/-- The immutable CASE prompt value. -/
structure CasePrompt where
  composition : List String
  action : List String
  subject : List String
  environment : List String
  negatives : List String
deriving DecidableEq, Repr

/-- _format_line: label and join, or plain join in flat mode. -/
def formatLine (name : String) (items : List String) (flat : Bool)
    (delim : String) : String :=
  let joined := String.intercalate delim items
  if flat then joined else name ++ ": " ++ joined

/-- CasePrompt.as_lines: the four section lines then the negative line. -/
def CasePrompt.asLines (p : CasePrompt) (flat : Bool) (delim : String) : List String :=
  [formatLine "Composition" p.composition flat delim,
   formatLine "Action" p.action flat delim,
   formatLine "Subject" p.subject flat delim,
   formatLine "Environment" p.environment flat delim,
   formatLine (if flat then "" else "Negative Prompt") p.negatives flat delim]

/-- Lookup of one pool section by name (pools["composition"] and friends; the
document always carries the four sections, a missing one is read as empty). -/
def poolSection (pools : Pools) (name : String) : SecMap :=
  dgetD pools.combined name []

/-- The style preset lookup of generate_prompt: a falsy name means no preset,
an unknown name raises. -/
def presetLookup (pools : Pools) (sp : Option String) : Except Err (Option Preset) :=
  match sp with
  | none => .ok none
  | some name =>
    if name = "" then .ok none else
    match dget pools.style_presets name with
    | none => .error (.unknownPreset name)
    | some pd => .ok (some pd)

/-- The negative group expansion loop of generate_prompt: every requested
group looked up in order, an unknown group raises. -/
def expandGroups (optionalPool : List (String × List String)) :
    List String → Except Err (List String)
  | [] => .ok []
  | gname :: rest =>
    match dget optionalPool gname with
    | none => .error (.unknownGroup gname)
    | some vs =>
      match expandGroups optionalPool rest with
      | .error e => .error e
      | .ok more => .ok (vs ++ more)

/-- The sampling block of generate_prompt (lines seeding through the four
_sample_section calls): seed once, then draw the four sections in the fixed
composition, action, subject, environment order. -/
def sampledSections (ambient : Rng) (pools : Pools) (modes : List String)
    (seed : Option Int) (co ao so eo : List (String × Nat)) (dc : Nat) :
    List String × List String × List String × List String :=
  let preferredModes := modes.filter (fun m => decide (m ≠ "general"))
  let prefC := buildPreferred pools.sources preferredModes "composition"
  let prefA := buildPreferred pools.sources preferredModes "action"
  let prefS := buildPreferred pools.sources preferredModes "subject"
  let prefE := buildPreferred pools.sources preferredModes "environment"
  let g0 : Rng := match seed with | some s => seedRng s | none => ambient
  let rc := sampleSection g0 (poolSection pools "composition") co dc prefC
  let ra := sampleSection rc.2 (poolSection pools "action") ao dc prefA
  let rs := sampleSection ra.2 (poolSection pools "subject") so dc prefS
  let re := sampleSection rs.2 (poolSection pools "environment") eo dc prefE
  (rc.1, ra.1, rs.1, re.1)

/-- generate_prompt: sample the four sections, merge the optional style
preset with membership dedup per section, then assemble the negative list as
base, requested groups in caller order, preset extras appended verbatim. -/
def generatePrompt (ambient : Rng) (pools : Pools) (modes : List String)
    (seed : Option Int) (co ao so eo : List (String × Nat))
    (negativeGroups : List String) (stylePreset : Option String) (dc : Nat) :
    Except Err CasePrompt :=
  match sampledSections ambient pools modes seed co ao so eo dc with
  | (c, aL, sL, eL) =>
    match presetLookup pools stylePreset with
    | .error e => .error e
    | .ok pd =>
      let c2 := match pd with | some p => mergeValues c p.composition | none => c
      let a2 := match pd with | some p => mergeValues aL p.action | none => aL
      let s2 := match pd with | some p => mergeValues sL p.subject | none => sL
      let e2 := match pd with | some p => mergeValues eL p.environment | none => eL
      match expandGroups pools.negative_optional negativeGroups with
      | .error e => .error e
      | .ok gs =>
        let negs := (pools.negative_base ++ gs) ++
          (match pd with | some p => p.negative | none => [])
        .ok { composition := c2, action := a2, subject := s2,
              environment := e2, negatives := negs }

/-!
## Workflow graph model and patch engine (apply_case_prompt.py)

A workflow document maps a string encoded positive integer node id to a node
record with a class_type role string and an inputs mapping.  Node ids are
modelled as the integers they encode.  Input values are either literals
(strings and numbers) or a reference pair of producer node id and output
slot; values the patcher never inspects are carried by an uninterpreted
constructor.  File system effects are recorded as an event trace; the world
holds the set of files that exist on disk.
-/

/-- An input value of a workflow node. -/
inductive Val where
  | str (s : String)
  | num (q : ℚ)
  | ref (id : Nat) (slot : Nat)
  | other (tag : Nat)
deriving DecidableEq, Repr

/-- A node record: the role string, the inputs mapping, and a tag standing
for any further record keys, which every patch step copies unchanged. -/
structure WNode where
  class_type : String
  inputs : List (String × Val)
  extra : Nat := 0
deriving DecidableEq, Repr

/-- The workflow graph: insertion ordered mapping from node id to record. -/
abbrev Graph := List (Nat × WNode)

/-- find_node_id fused with the dict read it guards: the first node of the
graph, in iteration order, whose class_type matches. -/
def findNode : Graph → String → Option (Nat × WNode)
  | [], _ => none
  | p :: rest, ct => if p.2.class_type = ct then some p else findNode rest ct

/-- max(existing_ids) when nonempty, else 0. -/
def maxKey (ids : List Nat) : Nat :=
  ids.foldl max 0

/-- next_id: max of the reserved ids plus one, reserved immediately. -/
def nextId (ids : List Nat) : Nat × List Nat :=
  (maxKey ids + 1, ids ++ [maxKey ids + 1])

/-- The files that exist on disk. -/
structure World where
  files : List String
deriving DecidableEq, Repr

/-- A copy adds the destination file. -/
def addFile (w : World) (p : String) : World :=
  { files := w.files ++ [p] }

/-- File system events of one patch run, in order. -/
inductive Ev where
  | mkdirInput
  | copyImage (src dst : String)
  | writeWorkflow
deriving DecidableEq, Repr

/-- The command line arguments the patch engine reads (defaults as declared
by build_parser). -/
structure Args where
  pos_node : Nat := 6
  neg_node : Nat := 7
  lora_strength_model : Option ℚ := none
  lora_strength_clip : Option ℚ := none
  clip_layer : Option Int := none
  add_controlnet : Bool := false
  controlnet : Option String := none
  control_image : Option String := none
  control_strength : ℚ := 9 / 10
  control_start : ℚ := 0
  control_end : ℚ := 1
  add_ipadapter : Bool := false
  ipadapter_preset : String := "PLUS (high strength)"
  ipadapter_image : Option String := none
  ipadapter_weight : ℚ := 85 / 100
  ipadapter_weight_type : String := "style and composition"
  ipadapter_combine : String := "average"
  ipadapter_start : ℚ := 0
  ipadapter_end : ℚ := 7 / 10
  ipadapter_embeds : String := "K+mean(V) w/ C penalty"
  ipadapter_community : Bool := false
  ipadapter_community_preset : String := "Composition"
  inputRoot : String := "input"
deriving Repr

/-- Python truthiness of an optional string argument: absent and empty are
both falsy. -/
def truthyS : Option String → Bool
  | none => false
  | some s => s ≠ ""

/-- Helper for baseName: keep only the characters after the last slash. -/
def baseNameAux : List Char → List Char → List Char
  | [], acc => acc
  | c :: rest, acc => if c = '/' then baseNameAux rest [] else baseNameAux rest (acc ++ [c])

/-- The file name component of a path (pathlib Path.name). -/
def baseName (p : String) : String :=
  String.mk (baseNameAux p.data [])

/-- The always performed text injection (lines reading the two encoder nodes
through writing both records back): both nodes are read from the incoming
graph before either is overwritten; each must carry the CLIPTextEncode
role. -/
def textPhase (a : Args) (posText negText : String) (g : Graph) :
    Except Err Graph :=
  match dget g a.pos_node with
  | none => .error (.roleMismatch a.pos_node)
  | some pn =>
    if pn.class_type ≠ "CLIPTextEncode" then .error (.roleMismatch a.pos_node) else
    match dget g a.neg_node with
    | none => .error (.roleMismatch a.neg_node)
    | some nn =>
      if nn.class_type ≠ "CLIPTextEncode" then .error (.roleMismatch a.neg_node) else
      .ok (dset (dset g a.pos_node { pn with inputs := dset pn.inputs "text" (.str posText) })
             a.neg_node { nn with inputs := dset nn.inputs "text" (.str negText) })

/-- The optional LoRA strength override: locate the LoraLoader node and
overwrite the requested strength inputs. -/
def loraPhase (a : Args) (g : Graph) : Except Err Graph :=
  if a.lora_strength_model.isNone ∧ a.lora_strength_clip.isNone then .ok g else
  match findNode g "LoraLoader" with
  | none => .error (.nodeNotFound "LoraLoader")
  | some p =>
    let i1 := match a.lora_strength_model with
      | some q => dset p.2.inputs "strength_model" (.num q)
      | none => p.2.inputs
    let i2 := match a.lora_strength_clip with
      | some q => dset i1 "strength_clip" (.num q)
      | none => i1
    .ok (dset g p.1 { p.2 with inputs := i2 })

/-- The optional CLIP stop layer override. -/
def clipPhase (a : Args) (g : Graph) : Except Err Graph :=
  match a.clip_layer with
  | none => .ok g
  | some n =>
    match findNode g "CLIPSetLastLayer" with
    | none => .error (.nodeNotFound "CLIPSetLastLayer")
    | some p =>
      .ok (dset g p.1 { p.2 with inputs := dset p.2.inputs "stop_at_clip_layer" (.num (n : ℚ)) })

/-- One upsert of the ControlNet branch: the role was looked up on the graph
as it stood before the branch started; a hit merges the given inputs into the
record as it currently stands, a miss creates a fresh node holding exactly
the given inputs under a newly allocated id. -/
def cnUpsert (g : Graph) (ids : List Nat) (found : Option (Nat × WNode))
    (ct : String) (kvs : List (String × Val)) : Nat × Graph × List Nat :=
  match found with
  | some p =>
    let m := (dget g p.1).getD p.2
    (p.1, dset g p.1 { m with inputs := dsetMany m.inputs kvs }, ids)
  | none =>
    let i := maxKey ids + 1
    (i, dset g i { class_type := ct, inputs := kvs, extra := 0 }, ids ++ [i])

/-- The inputs written into the ControlNetApplyAdvanced node. -/
def cnApplyKvs (a : Args) (cid iid : Nat) : List (String × Val) :=
  [("positive", .ref a.pos_node 0), ("negative", .ref a.neg_node 0),
   ("control_net", .ref cid 0), ("image", .ref iid 0),
   ("strength", .num a.control_strength), ("start_percent", .num a.control_start),
   ("end_percent", .num a.control_end)]

/-- The ControlNet branch of main: argument check, the three role lookups on
the incoming graph, the loader upsert, the input directory and reference
image handling, the image loader and conditioning applier upserts, and the
sampler rewire.  The trace records the directory creation and the copy. -/
def controlnetPhase (a : Args) (w : World) (g : Graph) :
    List Ev × World × Except Err Graph :=
  if a.add_controlnet = false then ([], w, .ok g) else
  if (truthyS a.controlnet && truthyS a.control_image) = false then
    ([], w, .error (.missingArgument "--add-controlnet requires --controlnet and --control-image"))
  else
    let cn := a.controlnet.getD ""
    let cimg := a.control_image.getD ""
    let foundC := findNode g "ControlNetLoader"
    let foundI := findNode g "LoadImage"
    let foundA := findNode g "ControlNetApplyAdvanced"
    let r1 := cnUpsert g (dkeys g) foundC "ControlNetLoader" [("control_net_name", .str cn)]
    if (cimg ∈ w.files : Bool) = false then ([.mkdirInput], w, .error (.fileNotFound cimg)) else
    let dname := baseName cimg
    let dpath := a.inputRoot ++ "/" ++ dname
    let ew := if cimg = dpath then ([Ev.mkdirInput], w)
              else ([Ev.mkdirInput, Ev.copyImage cimg dpath], addFile w dpath)
    let r2 := cnUpsert r1.2.1 r1.2.2 foundI "LoadImage" [("image", .str dname)]
    let r3 := cnUpsert r2.2.1 r2.2.2 foundA "ControlNetApplyAdvanced" (cnApplyKvs a r1.1 r2.1)
    match findNode r3.2.1 "KSampler" with
    | none => (ew.1, ew.2, .error (.nodeNotFound "KSampler"))
    | some sp =>
      (ew.1, ew.2, .ok (dset r3.2.1 sp.1
        { sp.2 with inputs := dsetMany sp.2.inputs [("positive", .ref r3.1 0), ("negative", .ref r3.1 1)] }))

/-- The tail of the IPAdapter branch after the unified loader upsert: the
always fresh image loader node, the advanced node upsert which replaces its
inputs, and the sampler model rewire. -/
def ipaTail (a : Args) (ew : List Ev × World) (dname : String)
    (r1 : Nat × Graph × List Nat) : List Ev × World × Except Err Graph :=
  let iid := maxKey r1.2.2 + 1
  let g2 := dset r1.2.1 iid { class_type := "LoadImage", inputs := [("image", .str dname)], extra := 0 }
  let ids2 := r1.2.2 ++ [iid]
  let akvs : List (String × Val) :=
    [("model", .ref r1.1 0), ("ipadapter", .ref r1.1 1), ("image", .ref iid 0),
     ("weight", .num a.ipadapter_weight), ("weight_type", .str a.ipadapter_weight_type),
     ("combine_embeds", .str a.ipadapter_combine), ("start_at", .num a.ipadapter_start),
     ("end_at", .num a.ipadapter_end), ("embeds_scaling", .str a.ipadapter_embeds)]
  let ra : Nat × Graph :=
    match findNode g2 "IPAdapterAdvanced" with
    | some p =>
      let m := (dget g2 p.1).getD p.2
      (p.1, dset g2 p.1 { m with inputs := akvs })
    | none =>
      let i := maxKey ids2 + 1
      (i, dset g2 i { class_type := "IPAdapterAdvanced", inputs := akvs, extra := 0 })
  match findNode ra.2 "KSampler" with
  | none => (ew.1, ew.2, .error (.nodeNotFound "KSampler"))
  | some sp =>
    (ew.1, ew.2, .ok (dset ra.2 sp.1
      { sp.2 with inputs := dset sp.2.inputs "model" (.ref ra.1 0) }))

/-- The IPAdapter branch of main: argument check, the LoRA loader dependency,
reference image handling, the unified loader upsert whose hit REPLACES the
whole inputs mapping, then the tail above. -/
def ipadapterPhase (a : Args) (w : World) (g : Graph) :
    List Ev × World × Except Err Graph :=
  if a.add_ipadapter = false then ([], w, .ok g) else
  if truthyS a.ipadapter_image = false then
    ([], w, .error (.missingArgument "--add-ipadapter requires --ipadapter-image"))
  else
  match findNode g "LoraLoader" with
  | none => ([], w, .error .dependencyMissing)
  | some lp =>
    let img := a.ipadapter_image.getD ""
    if (img ∈ w.files : Bool) = false then ([.mkdirInput], w, .error (.fileNotFound img)) else
    let dname := baseName img
    let dpath := a.inputRoot ++ "/" ++ dname
    let ew := if img = dpath then ([Ev.mkdirInput], w)
              else ([Ev.mkdirInput, Ev.copyImage img dpath], addFile w dpath)
    let lc := if a.ipadapter_community then "IPAdapterUnifiedLoaderCommunity"
              else "IPAdapterUnifiedLoader"
    let lkvs : List (String × Val) :=
      [("model", .ref lp.1 0),
       ("preset", .str (if a.ipadapter_community then a.ipadapter_community_preset
                        else a.ipadapter_preset))]
    let r1 : Nat × Graph × List Nat :=
      match findNode g lc with
      | some p =>
        let m := (dget g p.1).getD p.2
        (p.1, dset g p.1 { m with inputs := lkvs }, dkeys g)
      | none =>
        let i := maxKey (dkeys g) + 1
        (i, dset g i { class_type := lc, inputs := lkvs, extra := 0 }, dkeys g ++ [i])
    ipaTail a ew dname r1

/-- The graph mutating part of main, from the parse of the workflow document
through the final write: text injection, the optional overrides, the two
optional branches, and only then, after every step succeeded, the single
write of the output document. -/
def mainPatch (a : Args) (w : World) (posText negText : String) (g : Graph) :
    List Ev × Except Err Graph :=
  match textPhase a posText negText g with
  | .error e => ([], .error e)
  | .ok g1 =>
  match loraPhase a g1 with
  | .error e => ([], .error e)
  | .ok g2 =>
  match clipPhase a g2 with
  | .error e => ([], .error e)
  | .ok g3 =>
  match controlnetPhase a w g3 with
  | (evs, _, .error e) => (evs, .error e)
  | (evs, w1, .ok g4) =>
  match ipadapterPhase a w1 g4 with
  | (evs2, _, .error e) => (evs ++ evs2, .error e)
  | (evs2, _, .ok g5) => (evs ++ evs2 ++ [.writeWorkflow], .ok g5)

deriving instance DecidableEq for Except

/-!
## Shared lemmas about unseen token appends
-/

theorem mergeValues_append (l vs : List String) :
    ∃ t, mergeValues l vs = l ++ t ∧ ∀ x ∈ t, x ∈ vs ∧ x ∉ l := by
  induction vs generalizing l with
  | nil => exact ⟨[], by simp [mergeValues], by simp⟩
  | cons v rest ih =>
    by_cases hv : v ∈ l
    · have hins : insertValue l v = l := by simp [insertValue, hv]
      obtain ⟨t, ht, hp⟩ := ih l
      refine ⟨t, ?_, ?_⟩
      · show mergeValues (insertValue l v) rest = l ++ t
        rw [hins]
        exact ht
      · intro x hx
        exact ⟨List.mem_cons_of_mem _ (hp x hx).1, (hp x hx).2⟩
    · have hins : insertValue l v = l ++ [v] := by simp [insertValue, hv]
      obtain ⟨t, ht, hp⟩ := ih (l ++ [v])
      refine ⟨v :: t, ?_, ?_⟩
      · show mergeValues (insertValue l v) rest = l ++ v :: t
        rw [hins, ht, List.append_assoc]
        rfl
      · intro x hx
        rcases List.mem_cons.mp hx with h1 | h2
        · subst h1
          exact ⟨List.mem_cons_self _ _, hv⟩
        · have := hp x h2
          refine ⟨List.mem_cons_of_mem _ this.1, fun hc => this.2 ?_⟩
          exact List.mem_append.mpr (Or.inl hc)

theorem mem_mergeValues_right {l : List String} (vs : List String) {v : String}
    (h : v ∈ l) : v ∈ mergeValues l vs := by
  obtain ⟨t, ht, _⟩ := mergeValues_append l vs
  rw [ht]
  exact List.mem_append.mpr (Or.inl h)

theorem mem_mergeValues_left {l vs : List String} {v : String}
    (h : v ∈ vs) : v ∈ mergeValues l vs := by
  induction vs generalizing l with
  | nil => simp at h
  | cons w rest ih =>
    rcases List.mem_cons.mp h with h1 | h2
    · subst h1
      show v ∈ mergeValues (insertValue l v) rest
      refine mem_mergeValues_right rest ?_
      by_cases hv : v ∈ l
      · simp [insertValue, hv]
      · simp [insertValue, hv]
    · exact ih h2

theorem mergeValues_nodup {l : List String} (vs : List String)
    (h : l.Nodup) : (mergeValues l vs).Nodup := by
  induction vs generalizing l with
  | nil => exact h
  | cons v rest ih =>
    show (mergeValues (insertValue l v) rest).Nodup
    refine ih ?_
    by_cases hv : v ∈ l
    · simpa [insertValue, hv]
    · simp only [insertValue, hv, if_false, if_neg]
      simp [List.nodup_append, h, hv]

theorem mergeValues_id {l vs : List String} (h : ∀ v ∈ vs, v ∈ l) :
    mergeValues l vs = l := by
  induction vs generalizing l with
  | nil => rfl
  | cons v rest ih =>
    have hv : v ∈ l := h v (List.mem_cons_self _ _)
    show mergeValues (insertValue l v) rest = l
    have hins : insertValue l v = l := by simp [insertValue, hv]
    rw [hins]
    exact ih fun w hw => h w (List.mem_cons_of_mem _ hw)

/-!
## Claim C1: per subcategory draw size and distinctness
-/

/-- A pool document in which the two non default modes m1 and m2 both
contribute the token a to the same subcategory. -/
def overlapDoc : PoolsDoc :=
  { sets := [("general", [("composition", [("quality", ["b"])])]),
             ("m1", [("composition", [("quality", ["a"])])]),
             ("m2", [("composition", [("quality", ["a"])])])] }

/-- C1: the claim states that every subcategory draw holds exactly
min(requested, pool size) tokens and never a duplicate, including when the
preferred tokens of several non default blend modes overlap.  The code
violates this: build_preferred concatenates the per mode contributions, so a
token contributed by two modes appears twice in the preferred list handed to
random.sample, and the sample can return it twice.  At the failing input
(token a contributed by modes m1 and m2, pool {b, a}, requested count 2) the
draw evaluates to [a, a]: a duplicated token, and one distinct token where
the claim requires min(2, 2) = 2. -/
theorem pick_items_duplicate_draw :
    ((loadPools overlapDoc ["general", "m1", "m2"]).bind
        (fun pools => generatePrompt 0 pools ["general", "m1", "m2"] (some 0)
          [("quality", 2)] [] [] [] [] none 1)).map (fun p => p.composition) =
      .ok ["a", "a"] ∧ ¬ (["a", "a"] : List String).Nodup := by
  constructor
  · rfl
  · decide

/-!
## Claim C2: fixed seed determinism of generate_prompt plus as_lines
-/

/-- C2: for a fixed seed, pools, overrides, negative groups and preset, two
independent calls to generate_prompt followed by as_lines with the same flat
flag and delimiter return identical line lists: random.seed(seed) runs once
before any draw, so the ambient generator state of the process (the only
difference between two independent calls) is discarded and every draw is
determined by seed, pool content and override values. -/
theorem generate_prompt_deterministic (amb1 amb2 : Rng) (pools : Pools)
    (modes : List String) (s : Int) (co ao so eo : List (String × Nat))
    (ng : List String) (sp : Option String) (dc : Nat) (flat : Bool)
    (delim : String) :
    (generatePrompt amb1 pools modes (some s) co ao so eo ng sp dc).map
        (fun p => p.asLines flat delim) =
      (generatePrompt amb2 pools modes (some s) co ao so eo ng sp dc).map
        (fun p => p.asLines flat delim) := rfl

/-!
## Claim C8: style preset merge
-/

/-- A pool set whose preset contributes a negative token that is already in
the negative base list. -/
def dupNegPools : Pools :=
  { combined := [], sources := [], negative_base := ["x"],
    style_presets := [("p", { negative := ["x"] })] }

/-- C8 counterexample: the claim states that preset extra negative tokens are
deduplicated against the already built negative list, but generate_prompt
extends the negative list with the preset negatives verbatim: with base [x]
and preset negatives [x] the result is [x, x], not [x]. -/
theorem preset_negative_no_dedup :
    (generatePrompt 0 dupNegPools ["general"] (some 0) [] [] [] [] [] (some "p") 1).map
        (fun p => p.negatives) = .ok ["x", "x"] := rfl

/-- C8 as amended: for every preset found in the definitions, each section of
the sampled prompt is extended with exactly those preset extra tokens not
already present in that section (membership by exact token equality), while
the preset extra negative tokens are appended verbatim to the negative list
(base, then requested groups, then preset extras) with no deduplication. -/
theorem preset_merge_behavior :
    (∀ (amb : Rng) (pools : Pools) (modes : List String) (sd : Option Int)
       (co ao so eo : List (String × Nat)) (gs : List String) (name : String)
       (pd : Preset) (negs : List String) (dc : Nat),
       dget pools.style_presets name = some pd → name ≠ "" →
       expandGroups pools.negative_optional gs = .ok negs →
       generatePrompt amb pools modes sd co ao so eo gs (some name) dc =
         .ok { composition := mergeValues (sampledSections amb pools modes sd co ao so eo dc).1 pd.composition
               action := mergeValues (sampledSections amb pools modes sd co ao so eo dc).2.1 pd.action
               subject := mergeValues (sampledSections amb pools modes sd co ao so eo dc).2.2.1 pd.subject
               environment := mergeValues (sampledSections amb pools modes sd co ao so eo dc).2.2.2 pd.environment
               negatives := (pools.negative_base ++ negs) ++ pd.negative })
    ∧ (∀ l vs : List String,
       (∃ t, mergeValues l vs = l ++ t ∧ ∀ x ∈ t, x ∈ vs ∧ x ∉ l)
       ∧ ∀ v ∈ vs, v ∈ mergeValues l vs) := by
  constructor
  · intro amb pools modes sd co ao so eo gs name pd negs dc hpd hname hgs
    rcases hs : sampledSections amb pools modes sd co ao so eo dc with ⟨c, aL, sL, eL⟩
    simp only [generatePrompt, hs, presetLookup, hname, if_false, if_neg, hpd, hgs]
  · intro l vs
    exact ⟨mergeValues_append l vs, fun v hv => mem_mergeValues_left hv⟩

/-- A pool set exercising the amended preset merge at a concrete input. -/
def presetPools : Pools :=
  { combined := [("composition", [("q", ["t"])])], sources := [],
    negative_base := ["b"], negative_optional := [("g", ["n"])],
    style_presets := [("p", { composition := ["t", "pc"], negative := ["pn"] })] }

/-- Witness for the amended C8 at a concrete input. -/
theorem preset_merge_behavior_witness :
    generatePrompt 0 presetPools ["general"] (some 0) [] [] [] [] ["g"] (some "p") 1 =
      .ok { composition := mergeValues (sampledSections 0 presetPools ["general"] (some 0) [] [] [] [] 1).1 (Preset.composition { composition := ["t", "pc"], negative := ["pn"] })
            action := mergeValues (sampledSections 0 presetPools ["general"] (some 0) [] [] [] [] 1).2.1 (Preset.action { composition := ["t", "pc"], negative := ["pn"] })
            subject := mergeValues (sampledSections 0 presetPools ["general"] (some 0) [] [] [] [] 1).2.2.1 (Preset.subject { composition := ["t", "pc"], negative := ["pn"] })
            environment := mergeValues (sampledSections 0 presetPools ["general"] (some 0) [] [] [] [] 1).2.2.2 (Preset.environment { composition := ["t", "pc"], negative := ["pn"] })
            negatives := (Pools.negative_base presetPools ++ ["n"]) ++ ["pn"] } :=
  preset_merge_behavior.1 0 presetPools ["general"] (some 0) [] [] [] [] ["g"] "p"
    { composition := ["t", "pc"], negative := ["pn"] } ["n"] 1 rfl (by decide) rfl

/-!
## Graph lemmas
-/

theorem findNode_mem {g : Graph} {ct : String} {p : Nat × WNode}
    (h : findNode g ct = some p) : p ∈ g ∧ p.2.class_type = ct := by
  induction g with
  | nil => simp [findNode] at h
  | cons q rest ih =>
    by_cases hq : q.2.class_type = ct
    · simp only [findNode, hq, if_pos, Option.some.injEq] at h
      subst h
      exact ⟨List.mem_cons_self _ _, hq⟩
    · simp only [findNode, hq, if_neg, if_false] at h
      obtain ⟨h1, h2⟩ := ih h
      exact ⟨List.mem_cons_of_mem _ h1, h2⟩

theorem findNode_eq_none {g : Graph} {ct : String} :
    findNode g ct = none ↔ ∀ p ∈ g, p.2.class_type ≠ ct := by
  induction g with
  | nil => simp [findNode]
  | cons q rest ih =>
    by_cases hq : q.2.class_type = ct
    · constructor
      · intro h
        simp [findNode, hq] at h
      · intro h
        exact absurd hq (h q (List.mem_cons_self _ _))
    · simp only [findNode, hq, if_neg, if_false, ih]
      constructor
      · intro h p hp
        rcases List.mem_cons.mp hp with h1 | h2
        · subst h1; exact hq
        · exact h p h2
      · intro h p hp
        exact h p (List.mem_cons_of_mem _ hp)

theorem dget_of_findNode {g : Graph} {ct : String} {p : Nat × WNode}
    (hnd : (dkeys g).Nodup) (h : findNode g ct = some p) :
    dget g p.1 = some p.2 :=
  mem_dget hnd (findNode_mem h).1

theorem findNode_map_id {g : Graph} {ct : String} {i : Nat} {b : WNode}
    (hi : i ∉ dkeys g) :
    (findNode g ct).map (fun q => if q.1 = i then (i, b) else q) = findNode g ct := by
  cases hfq : findNode g ct with
  | none => rfl
  | some q =>
    have hq := (findNode_mem hfq).1
    have hmem : q.1 ∈ dkeys g := List.mem_map.mpr ⟨q, hq, rfl⟩
    have hne : q.1 ≠ i := fun hc => hi (hc ▸ hmem)
    simp [hne]

theorem findNode_dset_update {g : Graph} {i : Nat} {n b : WNode}
    (hnd : (dkeys g).Nodup) (hg : dget g i = some n)
    (hc : b.class_type = n.class_type) (ct : String) :
    findNode (dset g i b) ct =
      (findNode g ct).map (fun q => if q.1 = i then (i, b) else q) := by
  induction g with
  | nil => simp [dget] at hg
  | cons p rest ih =>
    simp only [dkeys, List.map_cons, List.nodup_cons] at hnd
    by_cases hp : p.1 = i
    · have hn : n = p.2 := by
        simp only [dget, hp, if_pos, Option.some.injEq] at hg
        exact hg.symm
      subst hn
      simp only [dset, hp, if_pos]
      by_cases hct : p.2.class_type = ct
      · have hct2 : b.class_type = ct := by rw [hc]; exact hct
        simp only [findNode, hct2, hct, if_pos, Option.map_some]
        simp [hp]
      · have hct2 : ¬ b.class_type = ct := by rw [hc]; exact hct
        simp only [findNode, hct2, hct, if_neg, if_false]
        have hi : i ∉ dkeys rest := by rw [← hp]; exact hnd.1
        exact (findNode_map_id hi).symm
    · simp only [dset, hp, if_false, if_neg]
      have hgr : dget rest i = some n := by
        simp only [dget, hp, if_false, if_neg] at hg
        exact hg
      by_cases hct : p.2.class_type = ct
      · simp only [findNode, hct, if_pos, Option.map_some]
        simp [hp]
      · simp only [findNode, hct, if_neg, if_false]
        exact ih hnd.2 hgr

theorem findNode_append (g : Graph) (i : Nat) (n : WNode) (ct : String) :
    findNode (g ++ [(i, n)]) ct =
      match findNode g ct with
      | some q => some q
      | none => if n.class_type = ct then some (i, n) else none := by
  induction g with
  | nil => simp [findNode]
  | cons p rest ih =>
    by_cases hct : p.2.class_type = ct
    · simp [findNode, hct]
    · simp only [List.cons_append, findNode, hct, if_neg, if_false]
      exact ih

theorem le_foldl_max (ids : List Nat) : ∀ acc : Nat, acc ≤ ids.foldl max acc := by
  induction ids with
  | nil => intro acc; exact Nat.le_refl _
  | cons x rest ih =>
    intro acc
    exact le_trans (Nat.le_max_left acc x) (ih (max acc x))

theorem mem_le_foldl_max {x : Nat} (ids : List Nat) :
    ∀ acc : Nat, x ∈ ids → x ≤ ids.foldl max acc := by
  induction ids with
  | nil => intro acc h; simp at h
  | cons y rest ih =>
    intro acc h
    rcases List.mem_cons.mp h with h1 | h2
    · subst h1
      exact le_trans (Nat.le_max_right acc x) (le_foldl_max rest (max acc x))
    · exact ih (max acc y) h2

theorem mem_le_maxKey {ids : List Nat} {x : Nat} (h : x ∈ ids) : x ≤ maxKey ids :=
  mem_le_foldl_max ids 0 h

theorem maxKey_succ_not_mem (ids : List Nat) : maxKey ids + 1 ∉ ids := by
  intro h
  have := mem_le_maxKey h
  omega

theorem dget_append_single_ne {K V : Type} [DecidableEq K]
    {l : List (K × V)} {i j : K} {n : V} (h : j ≠ i) :
    dget (l ++ [(i, n)]) j = dget l j := by
  cases hg : dget l j with
  | some v => exact dget_append_left hg
  | none =>
    rw [dget_append_none hg]
    have hne : ¬ i = j := fun hh => h hh.symm
    simp [dget, hne, hg]

theorem dsetMany_dget_mem {K V : Type} [DecidableEq K]
    {l kvs : List (K × V)} {k : K} {v : V}
    (hnd : (dkeys kvs).Nodup) (h : (k, v) ∈ kvs) :
    dget (dsetMany l kvs) k = some v := by
  induction kvs generalizing l with
  | nil => simp at h
  | cons kv rest ih =>
    simp only [dkeys, List.map_cons, List.nodup_cons] at hnd
    rcases List.mem_cons.mp h with h1 | h2
    · have hkv : kv = (k, v) := h1.symm
      subst hkv
      show dget (dsetMany (dset l k v) rest) k = some v
      rw [dsetMany_dget_ne ?hne]
      · exact dget_dset_self l k v
      case hne =>
        intro kv2 hkv2 hc
        exact hnd.1 (List.mem_map.mpr ⟨kv2, hkv2, hc⟩)
    · show dget (dsetMany (dset l kv.1 kv.2) rest) k = some v
      exact ih hnd.2 h2

theorem dget_none_of_all_ne {K V : Type} [DecidableEq K]
    {kvs : List (K × V)} {k : K} (h : ∀ kv ∈ kvs, kv.1 ≠ k) :
    dget kvs k = none := by
  rw [dget_eq_none]
  intro hm
  obtain ⟨kv, hkv, hfst⟩ := List.mem_map.mp hm
  exact h kv hkv hfst

/-- Post state of one ControlNet branch upsert run against the role lookup on
the same graph: the resulting node carries the role, the written keys hold
exactly the given values, unwritten input keys keep the found node's values,
every other node is untouched, lookups of other roles are unchanged, and the
key list stays duplicate free and inside the reserved id list. -/
theorem cnUpsert_spec {g : Graph} {ids : List Nat} {ct : String}
    {kvs : List (String × Val)} {rid : Nat} {g2 : Graph} {ids2 : List Nat}
    (hnd : (dkeys g).Nodup) (hsub : ∀ x ∈ dkeys g, x ∈ ids)
    (hkv : (dkeys kvs).Nodup)
    (hrun : cnUpsert g ids (findNode g ct) ct kvs = (rid, g2, ids2)) :
    ∃ nN,
      dget g2 rid = some nN ∧
      nN.class_type = ct ∧
      (∀ kv ∈ kvs, dget nN.inputs kv.1 = some kv.2) ∧
      (∀ k, (∀ kv ∈ kvs, kv.1 ≠ k) →
        dget nN.inputs k = (match findNode g ct with
          | some p => dget p.2.inputs k
          | none => none)) ∧
      (∀ j, j ≠ rid → dget g2 j = dget g j) ∧
      findNode g2 ct = some (rid, nN) ∧
      (∀ ct2, ct2 ≠ ct → findNode g2 ct2 = findNode g ct2) ∧
      (dkeys g2).Nodup ∧
      (∀ x ∈ dkeys g2, x ∈ ids2) ∧
      (∀ x ∈ ids, x ∈ ids2) ∧
      (∀ p, findNode g ct = some p → rid = p.1) := by
  cases hf : findNode g ct with
  | some p =>
    have hget := dget_of_findNode hnd hf
    have hclass := (findNode_mem hf).2
    rw [hf] at hrun
    simp only [cnUpsert, hget, Option.getD_some, Prod.mk.injEq] at hrun
    obtain ⟨rfl, rfl, rfl⟩ := hrun
    refine ⟨{ p.2 with inputs := dsetMany p.2.inputs kvs }, ?_, hclass, ?_, ?_, ?_, ?_, ?_, ?_, ?_, ?_, ?_⟩
    · exact dget_dset_self g p.1 _
    · intro kv hkv2
      exact dsetMany_dget_mem hkv hkv2
    · intro k hk
      exact dsetMany_dget_ne hk
    · intro j hj
      exact dget_dset_ne g _ hj
    · rw [findNode_dset_update (b := { p.2 with inputs := dsetMany p.2.inputs kvs }) hnd hget rfl ct, hf]
      simp
    · intro ct2 hct2
      rw [findNode_dset_update (b := { p.2 with inputs := dsetMany p.2.inputs kvs }) hnd hget rfl ct2]
      cases hfq : findNode g ct2 with
      | none => rfl
      | some q =>
        have hqc := (findNode_mem hfq).2
        have hqget := dget_of_findNode hnd hfq
        have hqe : q.1 ≠ p.1 := by
          intro hc
          rw [hc, hget] at hqget
          have : q.2 = p.2 := by
            injection hqget with hval
            exact hval.symm
          rw [this, hclass] at hqc
          exact hct2 hqc.symm
        simp [hqe]
    · rw [dkeys_dset_of_some _ hget]
      exact hnd
    · intro x hx
      rw [dkeys_dset_of_some _ hget] at hx
      exact hsub x hx
    · intro x hx
      exact hx
    · intro q hq
      injection hq with hq2
      rw [hq2]
  | none =>
    rw [hf] at hrun
    simp only [cnUpsert, Prod.mk.injEq] at hrun
    obtain ⟨rfl, rfl, rfl⟩ := hrun
    have hfresh : maxKey ids + 1 ∉ dkeys g :=
      fun hc => maxKey_succ_not_mem ids (hsub _ hc)
    have hnone : dget g (maxKey ids + 1) = none := dget_eq_none.mpr hfresh
    have happ : dset g (maxKey ids + 1) { class_type := ct, inputs := kvs, extra := 0 } =
        g ++ [(maxKey ids + 1, { class_type := ct, inputs := kvs, extra := 0 })] :=
      dset_append _ hnone
    refine ⟨{ class_type := ct, inputs := kvs, extra := 0 }, ?_, rfl, ?_, ?_, ?_, ?_, ?_, ?_, ?_, ?_, ?_⟩
    · exact dget_dset_self g _ _
    · intro kv hkv2
      exact mem_dget hkv hkv2
    · intro k hk
      exact dget_none_of_all_ne hk
    · intro j hj
      rw [happ]
      exact dget_append_single_ne hj
    · rw [happ, findNode_append, hf]
      simp
    · intro ct2 hct2
      rw [happ, findNode_append]
      cases hfq : findNode g ct2 with
      | none =>
        simp only []
        have : ¬ (WNode.class_type { class_type := ct, inputs := kvs, extra := 0 } = ct2) :=
          fun hc => hct2 hc.symm
        simp [this]
      | some q => simp
    · rw [happ, dkeys, List.map_append]
      simp only [List.map_cons, List.map_nil]
      rw [List.nodup_append]
      refine ⟨hnd, List.nodup_singleton _, ?_⟩
      intro x hx hx2
      simp at hx2
      subst hx2
      exact hfresh hx
    · intro x hx
      rw [happ, dkeys, List.map_append] at hx
      rcases List.mem_append.mp hx with h1 | h2
      · exact List.mem_append.mpr (Or.inl (hsub x h1))
      · simp at h2
        subst h2
        exact List.mem_append.mpr (Or.inr (by simp))
    · intro x hx
      exact List.mem_append.mpr (Or.inl hx)
    · intro q hq
      exact absurd hq (by simp)

/-- A second upsert against a node that already carries all requested input
values changes nothing. -/
theorem cnUpsert_idem {g : Graph} {ids : List Nat} {ct : String}
    {kvs : List (String × Val)} {i : Nat} {m : WNode}
    (hf : findNode g ct = some (i, m))
    (hget : dget g i = some m)
    (hin : ∀ kv ∈ kvs, dget m.inputs kv.1 = some kv.2) :
    cnUpsert g ids (findNode g ct) ct kvs = (i, g, ids) := by
  rw [hf]
  simp only [cnUpsert, hget, Option.getD_some]
  rw [dsetMany_id hin]
  rw [show ({ m with inputs := m.inputs } : WNode) = m from rfl]
  rw [dset_id hget]

/-- Two nodes of one graph with different roles have different ids. -/
theorem ne_of_class_ne {g : Graph} {x y : Nat} {nx ny : WNode}
    (hx : dget g x = some nx) (hy : dget g y = some ny)
    (hc : nx.class_type ≠ ny.class_type) : x ≠ y := by
  intro he
  subst he
  rw [hx] at hy
  injection hy with hv
  exact hc (by rw [hv])

/-- Post state of a successful ControlNet branch run.  Either the branch was
not requested and nothing changed, or the patched graph carries the three
upserted role nodes with the requested inputs and the rewired sampler. -/
theorem controlnetPhase_spec {a : Args} {w : World} {g : Graph}
    {evs : List Ev} {w1 : World} {g1 : Graph}
    (hnd : (dkeys g).Nodup)
    (hrun : controlnetPhase a w g = (evs, w1, .ok g1)) :
    (a.add_controlnet = false ∧ g1 = g ∧ w1 = w) ∨
    (∃ cid iid aid sid lN iN aN sN,
      findNode g1 "ControlNetLoader" = some (cid, lN) ∧
      dget g1 cid = some lN ∧
      dget lN.inputs "control_net_name" = some (.str (a.controlnet.getD "")) ∧
      findNode g1 "LoadImage" = some (iid, iN) ∧
      dget g1 iid = some iN ∧
      dget iN.inputs "image" = some (.str (baseName (a.control_image.getD ""))) ∧
      findNode g1 "ControlNetApplyAdvanced" = some (aid, aN) ∧
      dget g1 aid = some aN ∧
      (∀ kv ∈ cnApplyKvs a cid iid, dget aN.inputs kv.1 = some kv.2) ∧
      findNode g1 "KSampler" = some (sid, sN) ∧
      dget g1 sid = some sN ∧
      dget sN.inputs "positive" = some (.ref aid 0) ∧
      dget sN.inputs "negative" = some (.ref aid 1) ∧
      (dkeys g1).Nodup ∧
      (∀ f ∈ w.files, f ∈ w1.files) ∧
      ((a.control_image.getD "") ∈ w.files) ∧
      (∀ p, findNode g "ControlNetApplyAdvanced" = some p →
        aid = p.1 ∧ ∀ k, (∀ kv ∈ cnApplyKvs a cid iid, kv.1 ≠ k) →
          dget aN.inputs k = dget p.2.inputs k) ∧
      a.add_controlnet = true ∧
      (truthyS a.controlnet && truthyS a.control_image) = true) := by
  by_cases hcn : a.add_controlnet = false
  · left
    unfold controlnetPhase at hrun
    rw [if_pos hcn] at hrun
    simp only [Prod.mk.injEq, Except.ok.injEq] at hrun
    exact ⟨hcn, hrun.2.2.symm, hrun.2.1.symm⟩
  · right
    unfold controlnetPhase at hrun
    rw [if_neg hcn] at hrun
    split at hrun
    · simp at hrun
    · simp only [] at hrun
      split at hrun
      · simp at hrun
      · rename_i harg hfile
        have hmem : (a.control_image.getD "") ∈ w.files := by
          refine of_decide_eq_true ?_
          revert hfile
          cases decide ((a.control_image.getD "") ∈ w.files) <;> simp
        rcases h1 : cnUpsert g (dkeys g) (findNode g "ControlNetLoader") "ControlNetLoader"
            [("control_net_name", Val.str (a.controlnet.getD ""))] with ⟨cid, r1g, r1i⟩
        obtain ⟨lN, e1, e2, e3, e4, e5, e6, e7, e8, e9, e10, e11⟩ :=
          cnUpsert_spec hnd (fun x hx => hx) (by simp [dkeys]) h1
        rw [h1] at hrun
        simp only [] at hrun
        have hLI : findNode g "LoadImage" = findNode r1g "LoadImage" :=
          (e7 "LoadImage" (by decide)).symm
        rw [hLI] at hrun
        rcases h2 : cnUpsert r1g r1i (findNode r1g "LoadImage") "LoadImage"
            [("image", Val.str (baseName (a.control_image.getD "")))] with ⟨iid, r2g, r2i⟩
        obtain ⟨iN, f1, f2, f3, f4, f5, f6, f7, f8, f9, f10, f11⟩ :=
          cnUpsert_spec e8 e9 (by simp [dkeys]) h2
        rw [h2] at hrun
        simp only [] at hrun
        have hAA : findNode g "ControlNetApplyAdvanced" = findNode r2g "ControlNetApplyAdvanced" := by
          rw [← e7 "ControlNetApplyAdvanced" (by decide)]
          exact (f7 "ControlNetApplyAdvanced" (by decide)).symm
        rw [hAA] at hrun
        rcases h3 : cnUpsert r2g r2i (findNode r2g "ControlNetApplyAdvanced")
            "ControlNetApplyAdvanced" (cnApplyKvs a cid iid) with ⟨aid, r3g, r3i⟩
        obtain ⟨aN, j1, j2, j3, j4, j5, j6, j7, j8, j9, j10, j11⟩ :=
          cnUpsert_spec f8 f9 (by simp [cnApplyKvs, dkeys]) h3
        rw [h3] at hrun
        simp only [] at hrun
        split at hrun
        · simp at hrun
        · rename_i sp hks
          simp only [Prod.mk.injEq, Except.ok.injEq] at hrun
          obtain ⟨hevs, hw1, hg1⟩ := hrun
          subst hg1
          have sget : dget r3g sp.1 = some sp.2 := dget_of_findNode j8 hks
          have sclass : sp.2.class_type = "KSampler" := (findNode_mem hks).2
          have F1 : findNode r3g "ControlNetLoader" = some (cid, lN) := by
            rw [j7 _ (by decide), f7 _ (by decide)]
            exact e6
          have F2 : findNode r3g "LoadImage" = some (iid, iN) := by
            rw [j7 _ (by decide)]
            exact f6
          have F3 : findNode r3g "ControlNetApplyAdvanced" = some (aid, aN) := j6
          have G1 : dget r3g cid = some lN := dget_of_findNode j8 F1
          have G2 : dget r3g iid = some iN := dget_of_findNode j8 F2
          have G3 : dget r3g aid = some aN := dget_of_findNode j8 F3
          have hcs : cid ≠ sp.1 := ne_of_class_ne G1 sget (by rw [e2, sclass]; decide)
          have his : iid ≠ sp.1 := ne_of_class_ne G2 sget (by rw [f2, sclass]; decide)
          have has2 : aid ≠ sp.1 := ne_of_class_ne G3 sget (by rw [j2, sclass]; decide)
          have hupd := findNode_dset_update
            (b := { class_type := sp.2.class_type,
                     inputs := dsetMany sp.2.inputs [("positive", Val.ref aid 0), ("negative", Val.ref aid 1)],
                     extra := sp.2.extra }) j8 sget rfl
          have haddT : a.add_controlnet = true := by
            revert hcn
            cases a.add_controlnet <;> simp
          have hargT : (truthyS a.controlnet && truthyS a.control_image) = true := by
            revert harg
            cases (truthyS a.controlnet && truthyS a.control_image) <;> simp
          refine ⟨cid, iid, aid, sp.1, lN, iN, aN,
            { class_type := sp.2.class_type,
              inputs := dsetMany sp.2.inputs [("positive", Val.ref aid 0), ("negative", Val.ref aid 1)],
              extra := sp.2.extra },
            ?_, ?_, ?_, ?_, ?_, ?_, ?_, ?_, ?_, ?_, ?_, ?_, ?_, ?_, ?_, hmem, ?_, haddT, hargT⟩
          · rw [hupd "ControlNetLoader", F1]
            simp [hcs]
          · rw [dget_dset_ne _ _ hcs]
            exact G1
          · exact e3 ("control_net_name", Val.str (a.controlnet.getD "")) (by simp)
          · rw [hupd "LoadImage", F2]
            simp [his]
          · rw [dget_dset_ne _ _ his]
            exact G2
          · exact f3 ("image", Val.str (baseName (a.control_image.getD ""))) (by simp)
          · rw [hupd "ControlNetApplyAdvanced", F3]
            simp [has2]
          · rw [dget_dset_ne _ _ has2]
            exact G3
          · exact j3
          · rw [hupd "KSampler", hks]
            simp
          · exact dget_dset_self _ _ _
          · exact dsetMany_dget_mem (by simp [dkeys]) (by simp)
          · exact dsetMany_dget_mem (by simp [dkeys]) (by simp)
          · rw [dkeys_dset_of_some _ sget]
            exact j8
          · by_cases hdp : a.control_image.getD "" = a.inputRoot ++ "/" ++ baseName (a.control_image.getD "")
            · rw [if_pos hdp] at hw1
              simp only [] at hw1
              rw [← hw1]
              intro f hf
              exact hf
            · rw [if_neg hdp] at hw1
              simp only [] at hw1
              rw [← hw1]
              intro f hf
              simp only [addFile]
              exact List.mem_append.mpr (Or.inl hf)
          · intro p hp
            have hp2 : findNode r2g "ControlNetApplyAdvanced" = some p := by
              rw [← hAA]
              exact hp
            refine ⟨j11 p hp2, ?_⟩
            intro k hk
            rw [j4 k hk, hp2]

/-- The ControlNet branch trace never contains the workflow write event. -/
theorem controlnetPhase_no_write (a : Args) (w : World) (g : Graph) :
    Ev.writeWorkflow ∉ (controlnetPhase a w g).1 := by
  unfold controlnetPhase
  split
  · simp
  · split
    · simp
    · simp only []
      split
      · simp
      · split
        · split <;> simp
        · split <;> simp

/-- The IPAdapter tail keeps the trace it is given. -/
theorem ipaTail_trace (a : Args) (ew : List Ev × World) (dname : String)
    (r1 : Nat × Graph × List Nat) : (ipaTail a ew dname r1).1 = ew.1 := by
  unfold ipaTail
  simp only []
  split <;> rfl

/-- The IPAdapter branch trace never contains the workflow write event. -/
theorem ipadapterPhase_no_write (a : Args) (w : World) (g : Graph) :
    Ev.writeWorkflow ∉ (ipadapterPhase a w g).1 := by
  unfold ipadapterPhase
  split
  · simp
  · split
    · simp
    · split
      · simp
      · simp only []
        split
        · simp
        · rw [ipaTail_trace]
          split <;> simp

/-!
## Claim C5: the workflow document is written once, at the end, or not at all
-/

/-- C5: on every patch run the on disk workflow document is written exactly
once, as the final action, and only when every requested mutation succeeded:
a run that fails (missing node, wrong role, missing argument, missing file)
produces no workflow write event at all, while a successful run produces
exactly one, as the last event of the trace. -/
theorem workflow_write_all_or_nothing :
    ∀ (a : Args) (w : World) (pt nt : String) (g : Graph),
    (∀ e, (mainPatch a w pt nt g).2 = .error e →
      Ev.writeWorkflow ∉ (mainPatch a w pt nt g).1) ∧
    (∀ g2, (mainPatch a w pt nt g).2 = .ok g2 →
      List.count Ev.writeWorkflow (mainPatch a w pt nt g).1 = 1 ∧
      (mainPatch a w pt nt g).1.getLast? = some Ev.writeWorkflow) := by
  intro a w pt nt g
  unfold mainPatch
  rcases htp : textPhase a pt nt g with e | g1
  · simp
  · simp only []
    rcases hlp : loraPhase a g1 with e | g2
    · simp
    · simp only []
      rcases hcp : clipPhase a g2 with e | g3
      · simp
      · simp only []
        rcases hcn : controlnetPhase a w g3 with ⟨evs, w1, r4⟩
        have hnw1 : Ev.writeWorkflow ∉ evs := by
          have := controlnetPhase_no_write a w g3
          rw [hcn] at this
          exact this
        rcases r4 with e | g4
        · constructor
          · intro e2 he2
            exact hnw1
          · intro g2 hg2
            simp at hg2
        · simp only []
          rcases hip : ipadapterPhase a w1 g4 with ⟨evs2, w2, r5⟩
          have hnw2 : Ev.writeWorkflow ∉ evs2 := by
            have := ipadapterPhase_no_write a w1 g4
            rw [hip] at this
            exact this
          rcases r5 with e | g5
          all_goals simp only []
          · constructor
            · intro e2 he2
              intro hmem
              rcases List.mem_append.mp hmem with h1 | h2
              · exact hnw1 h1
              · exact hnw2 h2
            · intro g2 hg2
              simp at hg2
          · constructor
            · intro e2 he2
              simp at he2
            · intro g2 hg2
              constructor
              · simp only [List.count_append]
                rw [List.count_eq_zero.mpr hnw1, List.count_eq_zero.mpr hnw2]
                rfl
              · rw [List.getLast?_concat]

/-- A minimal workflow graph holding the two text encoder nodes. -/
def plainG : Graph :=
  [(6, { class_type := "CLIPTextEncode", inputs := [("text", Val.str ""), ("clip", Val.ref 1 0)] }),
   (7, { class_type := "CLIPTextEncode", inputs := [("text", Val.str "")] })]

/-- Witness for C5 at a concrete successful run. -/
theorem workflow_write_all_or_nothing_witness :
    List.count Ev.writeWorkflow (mainPatch {} ⟨[]⟩ "P" "N" plainG).1 = 1 ∧
    (mainPatch {} ⟨[]⟩ "P" "N" plainG).1.getLast? = some Ev.writeWorkflow :=
  (workflow_write_all_or_nothing {} ⟨[]⟩ "P" "N" plainG).2
    (dset (dset plainG 6 { class_type := "CLIPTextEncode", inputs := dset [("text", Val.str ""), ("clip", Val.ref 1 0)] "text" (Val.str "P") }) 7 { class_type := "CLIPTextEncode", inputs := dset [("text", Val.str "")] "text" (Val.str "N") })
    (by rfl)

/-!
## Claim C10: without optional features only the two text inputs change
-/

/-- C10: when no optional feature is requested (no LoRA or CLIP override, no
ControlNet, no IPAdapter) and the two configured node ids name CLIPTextEncode
nodes, the patched graph differs from the input only in the text input key of
those two nodes: every other node record is returned unchanged, and on the
two encoder nodes the role, the passthrough record fields and every input
key other than text are unchanged. -/
theorem text_injection_frame :
    ∀ (a : Args) (w : World) (pt nt : String) (g : Graph) (evs : List Ev) (g1 : Graph),
    a.lora_strength_model = none → a.lora_strength_clip = none → a.clip_layer = none →
    a.add_controlnet = false → a.add_ipadapter = false →
    mainPatch a w pt nt g = (evs, .ok g1) →
    (∀ id, id ≠ a.pos_node → id ≠ a.neg_node → dget g1 id = dget g id) ∧
    (∀ id n, (id = a.pos_node ∨ id = a.neg_node) → dget g id = some n →
      ∃ n1, dget g1 id = some n1 ∧ n1.class_type = n.class_type ∧ n1.extra = n.extra ∧
        (∀ k, k ≠ "text" → dget n1.inputs k = dget n.inputs k)) := by
  intro a w pt nt g evs g1 hm hc hcl hcn hip hrun
  have hlora : ∀ g2, loraPhase a g2 = .ok g2 := by
    intro g2
    unfold loraPhase
    rw [if_pos]
    exact ⟨by rw [hm]; rfl, by rw [hc]; rfl⟩
  have hclip : ∀ g2, clipPhase a g2 = .ok g2 := by
    intro g2
    unfold clipPhase
    rw [hcl]
  have hcnp : ∀ g2, controlnetPhase a w g2 = ([], w, .ok g2) := by
    intro g2
    unfold controlnetPhase
    rw [if_pos hcn]
  have hipp : ∀ g2, ipadapterPhase a w g2 = ([], w, .ok g2) := by
    intro g2
    unfold ipadapterPhase
    rw [if_pos hip]
  unfold mainPatch at hrun
  rcases htp : textPhase a pt nt g with e | gt
  · rw [htp] at hrun
    simp at hrun
  · rw [htp] at hrun
    simp only [] at hrun
    rw [hlora gt] at hrun
    simp only [] at hrun
    rw [hclip gt] at hrun
    simp only [] at hrun
    rw [hcnp gt] at hrun
    simp only [] at hrun
    rw [hipp gt] at hrun
    simp only [Prod.mk.injEq, Except.ok.injEq] at hrun
    obtain ⟨hevs, hgt⟩ := hrun
    subst hgt
    unfold textPhase at htp
    rcases hpos : dget g a.pos_node with _ | pn
    · rw [hpos] at htp
      simp at htp
    · rw [hpos] at htp
      simp only [] at htp
      split at htp
      · simp at htp
      · rcases hneg : dget g a.neg_node with _ | nn
        · rw [hneg] at htp
          simp at htp
        · rw [hneg] at htp
          simp only [] at htp
          split at htp
          · simp at htp
          · simp only [Except.ok.injEq] at htp
            rw [← htp]
            constructor
            · intro id hidp hidn
              rw [dget_dset_ne _ _ hidn, dget_dset_ne _ _ hidp]
            · intro id n hid hn
              by_cases hidn : id = a.neg_node
              · subst hidn
                rw [hneg] at hn
                injection hn with hn2
                subst hn2
                refine ⟨_, dget_dset_self _ _ _, rfl, rfl, ?_⟩
                intro k hk
                exact dget_dset_ne _ _ hk
              · have hidp : id = a.pos_node := by
                  rcases hid with h1 | h2
                  · exact h1
                  · exact absurd h2 hidn
                subst hidp
                rw [hpos] at hn
                injection hn with hn2
                subst hn2
                rw [dget_dset_ne _ _ hidn]
                refine ⟨_, dget_dset_self _ _ _, rfl, rfl, ?_⟩
                intro k hk
                exact dget_dset_ne _ _ hk

/-- A workflow graph with a sampler node besides the two encoders. -/
def plainG2 : Graph :=
  [(1, { class_type := "KSampler", inputs := [("model", Val.ref 9 0)] }),
   (6, { class_type := "CLIPTextEncode", inputs := [("text", Val.str ""), ("clip", Val.ref 1 0)] }),
   (7, { class_type := "CLIPTextEncode", inputs := [("text", Val.str "")] })]

/-- Witness for C10 at a concrete input: the sampler node record is returned
unchanged by a run that requests no optional feature. -/
theorem text_injection_frame_witness :
    dget (dset (dset plainG2 6 { class_type := "CLIPTextEncode", inputs := dset [("text", Val.str ""), ("clip", Val.ref 1 0)] "text" (Val.str "P") }) 7 { class_type := "CLIPTextEncode", inputs := dset [("text", Val.str "")] "text" (Val.str "N") }) 1 = dget plainG2 1 :=
  (text_injection_frame {} ⟨[]⟩ "P" "N" plainG2 [Ev.writeWorkflow]
    (dset (dset plainG2 6 { class_type := "CLIPTextEncode", inputs := dset [("text", Val.str ""), ("clip", Val.ref 1 0)] "text" (Val.str "P") }) 7 { class_type := "CLIPTextEncode", inputs := dset [("text", Val.str "")] "text" (Val.str "N") })
    rfl rfl rfl rfl rfl (by rfl)).1 1 (by decide) (by decide)

/-- The inputs written into the IPAdapterAdvanced node. -/
def ipaAdvKvs (a : Args) (lid iid : Nat) : List (String × Val) :=
  [("model", .ref lid 0), ("ipadapter", .ref lid 1), ("image", .ref iid 0),
   ("weight", .num a.ipadapter_weight), ("weight_type", .str a.ipadapter_weight_type),
   ("combine_embeds", .str a.ipadapter_combine), ("start_at", .num a.ipadapter_start),
   ("end_at", .num a.ipadapter_end), ("embeds_scaling", .str a.ipadapter_embeds)]

/-- Post state of the IPAdapter tail: duplicate free keys are preserved, and
every node whose role is neither the advanced conditioning role nor the
sampler role is returned unchanged. -/
theorem ipaTail_spec {a : Args} {ew : List Ev × World} {dname : String}
    {r1 : Nat × Graph × List Nat} {evs : List Ev} {w1 : World} {g1 : Graph}
    (hnd1 : (dkeys r1.2.1).Nodup) (hsub1 : ∀ x ∈ dkeys r1.2.1, x ∈ r1.2.2)
    (hrun : ipaTail a ew dname r1 = (evs, w1, .ok g1)) :
    (dkeys g1).Nodup ∧
    (∀ j n, dget r1.2.1 j = some n → n.class_type ≠ "IPAdapterAdvanced" →
      n.class_type ≠ "KSampler" → dget g1 j = some n) := by
  unfold ipaTail at hrun
  simp only [] at hrun
  have hfresh2 : maxKey r1.2.2 + 1 ∉ dkeys r1.2.1 :=
    fun hc => maxKey_succ_not_mem r1.2.2 (hsub1 _ hc)
  have hnone2 : dget r1.2.1 (maxKey r1.2.2 + 1) = none := dget_eq_none.mpr hfresh2
  have happ2 : dset r1.2.1 (maxKey r1.2.2 + 1) { class_type := "LoadImage", inputs := [("image", Val.str dname)], extra := 0 } =
      r1.2.1 ++ [(maxKey r1.2.2 + 1, { class_type := "LoadImage", inputs := [("image", Val.str dname)], extra := 0 })] :=
    dset_append _ hnone2
  set G2 := dset r1.2.1 (maxKey r1.2.2 + 1) { class_type := "LoadImage", inputs := [("image", Val.str dname)], extra := 0 } with hG2
  have hnd2 : (dkeys G2).Nodup := by
    rw [happ2, dkeys, List.map_append, List.nodup_append]
    refine ⟨hnd1, by simp, ?_⟩
    intro x hx hx2
    simp at hx2
    subst hx2
    exact hfresh2 hx
  have hsub2 : ∀ x ∈ dkeys G2, x ∈ r1.2.2 ++ [maxKey r1.2.2 + 1] := by
    intro x hx
    rw [happ2, dkeys, List.map_append] at hx
    rcases List.mem_append.mp hx with h1 | h2
    · exact List.mem_append.mpr (Or.inl (hsub1 x h1))
    · simp at h2
      subst h2
      exact List.mem_append.mpr (Or.inr (by simp))
  have hpres2 : ∀ j n, dget r1.2.1 j = some n → dget G2 j = some n := by
    intro j n hj
    rw [happ2]
    exact dget_append_left hj
  have main3 : ∀ g3 : Graph, (dkeys g3).Nodup →
      (∀ j n, dget G2 j = some n → n.class_type ≠ "IPAdapterAdvanced" → dget g3 j = some n) →
      ∀ aidv sp, findNode g3 "KSampler" = some sp →
      dset g3 sp.1 { class_type := sp.2.class_type, inputs := dset sp.2.inputs "model" (Val.ref aidv 0), extra := sp.2.extra } = g1 →
      (dkeys g1).Nodup ∧
      (∀ j n, dget r1.2.1 j = some n → n.class_type ≠ "IPAdapterAdvanced" →
        n.class_type ≠ "KSampler" → dget g1 j = some n) := by
    intro g3 hnd3 hpres3 aidv sp hks hg1
    have sget : dget g3 sp.1 = some sp.2 := dget_of_findNode hnd3 hks
    have sclass : sp.2.class_type = "KSampler" := (findNode_mem hks).2
    constructor
    · rw [← hg1, dkeys_dset_of_some _ sget]
      exact hnd3
    · intro j n hj hc1 hc2
      have hj3 : dget g3 j = some n := hpres3 j n (hpres2 j n hj) hc1
      have hne : j ≠ sp.1 := ne_of_class_ne hj3 sget (by rw [sclass]; exact hc2)
      rw [← hg1, dget_dset_ne _ _ hne]
      exact hj3
  rcases hadv : findNode G2 "IPAdapterAdvanced" with _ | q
  · rw [hadv] at hrun
    simp only [] at hrun
    have hfresh3 : maxKey (r1.2.2 ++ [maxKey r1.2.2 + 1]) + 1 ∉ dkeys G2 :=
      fun hc => maxKey_succ_not_mem _ (hsub2 _ hc)
    have hnone3 : dget G2 (maxKey (r1.2.2 ++ [maxKey r1.2.2 + 1]) + 1) = none := dget_eq_none.mpr hfresh3
    have happ3 := dset_append { class_type := "IPAdapterAdvanced", inputs := ipaAdvKvs a r1.1 (maxKey r1.2.2 + 1), extra := 0 } hnone3
    have hnd3 : (dkeys (dset G2 (maxKey (r1.2.2 ++ [maxKey r1.2.2 + 1]) + 1) { class_type := "IPAdapterAdvanced", inputs := ipaAdvKvs a r1.1 (maxKey r1.2.2 + 1), extra := 0 })).Nodup := by
      rw [happ3, dkeys, List.map_append, List.nodup_append]
      refine ⟨hnd2, by simp, ?_⟩
      intro x hx hx2
      simp at hx2
      subst hx2
      exact hfresh3 hx
    have hpres3 : ∀ j n, dget G2 j = some n → n.class_type ≠ "IPAdapterAdvanced" →
        dget (dset G2 (maxKey (r1.2.2 ++ [maxKey r1.2.2 + 1]) + 1) { class_type := "IPAdapterAdvanced", inputs := ipaAdvKvs a r1.1 (maxKey r1.2.2 + 1), extra := 0 }) j = some n := by
      intro j n hj hc
      rw [happ3]
      exact dget_append_left hj
    split at hrun
    · simp at hrun
    · rename_i sp hks
      simp only [Prod.mk.injEq, Except.ok.injEq] at hrun
      refine main3 _ hnd3 ?_ _ sp ?_ hrun.2.2
      · intro j n hj hc
        exact hpres3 j n hj hc
      · exact hks
  · rw [hadv] at hrun
    simp only [] at hrun
    have qget : dget G2 q.1 = some q.2 := dget_of_findNode hnd2 hadv
    have qclass : q.2.class_type = "IPAdapterAdvanced" := (findNode_mem hadv).2
    rw [qget] at hrun
    simp only [Option.getD_some] at hrun
    have hnd3 : (dkeys (dset G2 q.1 { class_type := q.2.class_type, inputs := ipaAdvKvs a r1.1 (maxKey r1.2.2 + 1), extra := q.2.extra })).Nodup := by
      rw [dkeys_dset_of_some _ qget]
      exact hnd2
    have hpres3 : ∀ j n, dget G2 j = some n → n.class_type ≠ "IPAdapterAdvanced" →
        dget (dset G2 q.1 { class_type := q.2.class_type, inputs := ipaAdvKvs a r1.1 (maxKey r1.2.2 + 1), extra := q.2.extra }) j = some n := by
      intro j n hj hc
      have hne : j ≠ q.1 := ne_of_class_ne hj qget (by rw [qclass]; exact hc)
      rw [dget_dset_ne _ _ hne]
      exact hj
    split at hrun
    · simp at hrun
    · rename_i sp hks
      simp only [Prod.mk.injEq, Except.ok.injEq] at hrun
      exact main3 _ hnd3 hpres3 q.1 sp hks hrun.2.2

/-- When the tail of the IPAdapter branch finds the advanced conditioning
node, it REPLACES that node's whole input mapping with exactly the nine
update keys, keeping only the class type and the passthrough field. -/
theorem ipaTail_adv_replace {a : Args} {ew : List Ev × World} {dname : String}
    {r1 : Nat × Graph × List Nat} {evs : List Ev} {w1 : World} {g1 : Graph}
    {q : Nat × WNode}
    (hnd1 : (dkeys r1.2.1).Nodup) (hsub1 : ∀ x ∈ dkeys r1.2.1, x ∈ r1.2.2)
    (hq : findNode r1.2.1 "IPAdapterAdvanced" = some q)
    (hrun : ipaTail a ew dname r1 = (evs, w1, .ok g1)) :
    dget g1 q.1 = some { class_type := q.2.class_type, inputs := ipaAdvKvs a r1.1 (maxKey r1.2.2 + 1), extra := q.2.extra } := by
  unfold ipaTail at hrun
  simp only [] at hrun
  have hfresh2 : maxKey r1.2.2 + 1 ∉ dkeys r1.2.1 :=
    fun hc => maxKey_succ_not_mem r1.2.2 (hsub1 _ hc)
  have hnone2 : dget r1.2.1 (maxKey r1.2.2 + 1) = none := dget_eq_none.mpr hfresh2
  have happ2 : dset r1.2.1 (maxKey r1.2.2 + 1) { class_type := "LoadImage", inputs := [("image", Val.str dname)], extra := 0 } =
      r1.2.1 ++ [(maxKey r1.2.2 + 1, { class_type := "LoadImage", inputs := [("image", Val.str dname)], extra := 0 })] :=
    dset_append _ hnone2
  set G2 := dset r1.2.1 (maxKey r1.2.2 + 1) { class_type := "LoadImage", inputs := [("image", Val.str dname)], extra := 0 } with hG2
  have hnd2 : (dkeys G2).Nodup := by
    rw [happ2, dkeys, List.map_append, List.nodup_append]
    refine ⟨hnd1, by simp, ?_⟩
    intro x hx hx2
    simp at hx2
    subst hx2
    exact hfresh2 hx
  have hadv : findNode G2 "IPAdapterAdvanced" = some q := by
    rw [happ2, findNode_append, hq]
  rw [hadv] at hrun
  simp only [] at hrun
  have qget : dget G2 q.1 = some q.2 := dget_of_findNode hnd2 hadv
  have qclass : q.2.class_type = "IPAdapterAdvanced" := (findNode_mem hadv).2
  rw [qget] at hrun
  simp only [Option.getD_some] at hrun
  split at hrun
  · simp at hrun
  · rename_i sp hks
    simp only [Prod.mk.injEq, Except.ok.injEq] at hrun
    obtain ⟨_, _, hg1⟩ := hrun
    have hnd3 : (dkeys (dset G2 q.1 { class_type := q.2.class_type, inputs := ipaAdvKvs a r1.1 (maxKey r1.2.2 + 1), extra := q.2.extra })).Nodup := by
      rw [dkeys_dset_of_some _ qget]
      exact hnd2
    have aget : dget (dset G2 q.1 { class_type := q.2.class_type, inputs := ipaAdvKvs a r1.1 (maxKey r1.2.2 + 1), extra := q.2.extra }) q.1 = some { class_type := q.2.class_type, inputs := ipaAdvKvs a r1.1 (maxKey r1.2.2 + 1), extra := q.2.extra } :=
      dget_dset_self _ _ _
    have sget : dget (dset G2 q.1 { class_type := q.2.class_type, inputs := ipaAdvKvs a r1.1 (maxKey r1.2.2 + 1), extra := q.2.extra }) sp.1 = some sp.2 :=
      dget_of_findNode hnd3 hks
    have sclass : sp.2.class_type = "KSampler" := (findNode_mem hks).2
    have hne : q.1 ≠ sp.1 := ne_of_class_ne aget sget (by
      show q.2.class_type ≠ sp.2.class_type
      rw [qclass, sclass]
      decide)
    rw [← hg1, dget_dset_ne _ _ hne]
    exact aget

/-- Post state of a successful IPAdapter branch run: node ids stay duplicate
free; when the unified loader role already existed its whole input mapping
has been replaced by exactly the model reference and preset pair; and when
the advanced conditioning role already existed its whole input mapping has
been replaced by exactly the nine update keys. -/
theorem ipadapterPhase_spec {a : Args} {w : World} {g : Graph}
    {evs : List Ev} {w1 : World} {g1 : Graph}
    (hnd : (dkeys g).Nodup)
    (hrun : ipadapterPhase a w g = (evs, w1, .ok g1)) :
    (dkeys g1).Nodup ∧
    (a.add_ipadapter = true →
      ∀ p lp, findNode g (if a.ipadapter_community then "IPAdapterUnifiedLoaderCommunity" else "IPAdapterUnifiedLoader") = some p →
      findNode g "LoraLoader" = some lp →
      dget g1 p.1 = some { class_type := p.2.class_type, inputs := [("model", Val.ref lp.1 0), ("preset", Val.str (if a.ipadapter_community then a.ipadapter_community_preset else a.ipadapter_preset))], extra := p.2.extra }) ∧
    (a.add_ipadapter = true →
      ∀ q, findNode g "IPAdapterAdvanced" = some q →
      ∃ lid iid, dget g1 q.1 = some { class_type := q.2.class_type, inputs := ipaAdvKvs a lid iid, extra := q.2.extra }) := by
  have hlcA : (if a.ipadapter_community = true then "IPAdapterUnifiedLoaderCommunity" else "IPAdapterUnifiedLoader") ≠ "IPAdapterAdvanced" := by
    cases a.ipadapter_community <;> decide
  have hlcK : (if a.ipadapter_community = true then "IPAdapterUnifiedLoaderCommunity" else "IPAdapterUnifiedLoader") ≠ "KSampler" := by
    cases a.ipadapter_community <;> decide
  by_cases hip : a.add_ipadapter = false
  · unfold ipadapterPhase at hrun
    rw [if_pos hip] at hrun
    simp only [Prod.mk.injEq, Except.ok.injEq] at hrun
    obtain ⟨he, hw, hg⟩ := hrun
    subst hg
    refine ⟨hnd, ?_, ?_⟩
    · intro htrue
      rw [hip] at htrue
      exact Bool.noConfusion htrue
    · intro htrue
      rw [hip] at htrue
      exact Bool.noConfusion htrue
  · unfold ipadapterPhase at hrun
    rw [if_neg hip] at hrun
    split at hrun
    · simp at hrun
    · rcases hlp0 : findNode g "LoraLoader" with _ | lp0
      · rw [hlp0] at hrun
        simp at hrun
      · rw [hlp0] at hrun
        simp only [] at hrun
        split at hrun
        · simp at hrun
        · rcases hld : findNode g (if a.ipadapter_community = true then "IPAdapterUnifiedLoaderCommunity" else "IPAdapterUnifiedLoader") with _ | p0
          · rw [hld] at hrun
            simp only [] at hrun
            have hfresh : maxKey (dkeys g) + 1 ∉ dkeys g := maxKey_succ_not_mem (dkeys g)
            have hnone : dget g (maxKey (dkeys g) + 1) = none := dget_eq_none.mpr hfresh
            have happ := dset_append { class_type := (if a.ipadapter_community = true then "IPAdapterUnifiedLoaderCommunity" else "IPAdapterUnifiedLoader"), inputs := [("model", Val.ref lp0.1 0), ("preset", Val.str (if a.ipadapter_community = true then a.ipadapter_community_preset else a.ipadapter_preset))], extra := 0 } hnone
            have hnd1 : (dkeys (dset g (maxKey (dkeys g) + 1) { class_type := (if a.ipadapter_community = true then "IPAdapterUnifiedLoaderCommunity" else "IPAdapterUnifiedLoader"), inputs := [("model", Val.ref lp0.1 0), ("preset", Val.str (if a.ipadapter_community = true then a.ipadapter_community_preset else a.ipadapter_preset))], extra := 0 })).Nodup := by
              rw [happ, dkeys, List.map_append, List.nodup_append]
              refine ⟨hnd, by simp, ?_⟩
              intro x hx hx2
              simp at hx2
              subst hx2
              exact hfresh hx
            have hsub1 : ∀ x ∈ dkeys (dset g (maxKey (dkeys g) + 1) { class_type := (if a.ipadapter_community = true then "IPAdapterUnifiedLoaderCommunity" else "IPAdapterUnifiedLoader"), inputs := [("model", Val.ref lp0.1 0), ("preset", Val.str (if a.ipadapter_community = true then a.ipadapter_community_preset else a.ipadapter_preset))], extra := 0 }), x ∈ dkeys g ++ [maxKey (dkeys g) + 1] := by
              intro x hx
              rw [happ, dkeys, List.map_append] at hx
              exact hx
            obtain ⟨hc1, _⟩ := ipaTail_spec hnd1 hsub1 hrun
            refine ⟨hc1, ?_, ?_⟩
            · intro htrue p lp hp hlp
              exact absurd hp (by simp)
            · intro htrue q hq
              have hadv1 : findNode (dset g (maxKey (dkeys g) + 1) { class_type := (if a.ipadapter_community = true then "IPAdapterUnifiedLoaderCommunity" else "IPAdapterUnifiedLoader"), inputs := [("model", Val.ref lp0.1 0), ("preset", Val.str (if a.ipadapter_community = true then a.ipadapter_community_preset else a.ipadapter_preset))], extra := 0 }) "IPAdapterAdvanced" = some q := by
                rw [happ, findNode_append, hq]
              exact ⟨_, _, ipaTail_adv_replace hnd1 hsub1 hadv1 hrun⟩
          · rw [hld] at hrun
            simp only [] at hrun
            have hm : dget g p0.1 = some p0.2 := dget_of_findNode hnd hld
            have hmc : p0.2.class_type = (if a.ipadapter_community = true then "IPAdapterUnifiedLoaderCommunity" else "IPAdapterUnifiedLoader") := (findNode_mem hld).2
            rw [hm] at hrun
            simp only [Option.getD_some] at hrun
            have hnd1 : (dkeys (dset g p0.1 { class_type := p0.2.class_type, inputs := [("model", Val.ref lp0.1 0), ("preset", Val.str (if a.ipadapter_community = true then a.ipadapter_community_preset else a.ipadapter_preset))], extra := p0.2.extra })).Nodup := by
              rw [dkeys_dset_of_some _ hm]
              exact hnd
            have hsub1 : ∀ x ∈ dkeys (dset g p0.1 { class_type := p0.2.class_type, inputs := [("model", Val.ref lp0.1 0), ("preset", Val.str (if a.ipadapter_community = true then a.ipadapter_community_preset else a.ipadapter_preset))], extra := p0.2.extra }), x ∈ dkeys g := by
              intro x hx
              rw [dkeys_dset_of_some _ hm] at hx
              exact hx
            obtain ⟨hc1, hc2⟩ := ipaTail_spec hnd1 hsub1 hrun
            refine ⟨hc1, ?_, ?_⟩
            · intro htrue p lp hp hlp
              injection hp with hp2
              injection hlp with hlp2
              subst hp2
              subst hlp2
              refine hc2 p0.1 _ (dget_dset_self _ _ _) ?_ ?_
              · show p0.2.class_type ≠ "IPAdapterAdvanced"
                rw [hmc]
                exact hlcA
              · show p0.2.class_type ≠ "KSampler"
                rw [hmc]
                exact hlcK
            · intro htrue q hq
              have qget0 : dget g q.1 = some q.2 := dget_of_findNode hnd hq
              have qclass0 : q.2.class_type = "IPAdapterAdvanced" := (findNode_mem hq).2
              have hqp : q.1 ≠ p0.1 := ne_of_class_ne qget0 hm (by
                rw [qclass0, hmc]
                cases a.ipadapter_community <;> decide)
              have hadv1 : findNode (dset g p0.1 { class_type := p0.2.class_type, inputs := [("model", Val.ref lp0.1 0), ("preset", Val.str (if a.ipadapter_community = true then a.ipadapter_community_preset else a.ipadapter_preset))], extra := p0.2.extra }) "IPAdapterAdvanced" = some q := by
                rw [findNode_dset_update (b := { class_type := p0.2.class_type, inputs := [("model", Val.ref lp0.1 0), ("preset", Val.str (if a.ipadapter_community = true then a.ipadapter_community_preset else a.ipadapter_preset))], extra := p0.2.extra }) hnd hm rfl "IPAdapterAdvanced", hq]
                simp [hqp]
              exact ⟨_, _, ipaTail_adv_replace hnd1 hsub1 hadv1 hrun⟩

/-- The text, LoRA and CLIP phases never change the key list. -/
theorem textPhase_dkeys {a : Args} {pt nt : String} {g g1 : Graph}
    (hrun : textPhase a pt nt g = .ok g1) : dkeys g1 = dkeys g := by
  unfold textPhase at hrun
  rcases hpos : dget g a.pos_node with _ | pn
  · rw [hpos] at hrun
    simp at hrun
  · rw [hpos] at hrun
    simp only [] at hrun
    split at hrun
    · simp at hrun
    · rcases hneg : dget g a.neg_node with _ | nn
      · rw [hneg] at hrun
        simp at hrun
      · rw [hneg] at hrun
        simp only [] at hrun
        split at hrun
        · simp at hrun
        · simp only [Except.ok.injEq] at hrun
          rw [← hrun]
          have hneg2 : ∃ m, dget (dset g a.pos_node { class_type := pn.class_type, inputs := dset pn.inputs "text" (Val.str pt), extra := pn.extra }) a.neg_node = some m := by
            by_cases hpn : a.neg_node = a.pos_node
            · rw [hpn, dget_dset_self]
              exact ⟨_, rfl⟩
            · rw [dget_dset_ne _ _ hpn, hneg]
              exact ⟨_, rfl⟩
          obtain ⟨m, hm⟩ := hneg2
          rw [dkeys_dset_of_some _ hm, dkeys_dset_of_some _ hpos]

theorem loraPhase_dkeys {a : Args} {g g1 : Graph}
    (hnd : (dkeys g).Nodup)
    (hrun : loraPhase a g = .ok g1) : dkeys g1 = dkeys g := by
  unfold loraPhase at hrun
  split at hrun
  · simp only [Except.ok.injEq] at hrun
    rw [hrun]
  · rcases hl : findNode g "LoraLoader" with _ | p
    · rw [hl] at hrun
      simp at hrun
    · rw [hl] at hrun
      simp only [Except.ok.injEq] at hrun
      rw [← hrun]
      exact dkeys_dset_of_some _ (dget_of_findNode hnd hl)

theorem clipPhase_dkeys {a : Args} {g g1 : Graph}
    (hnd : (dkeys g).Nodup)
    (hrun : clipPhase a g = .ok g1) : dkeys g1 = dkeys g := by
  unfold clipPhase at hrun
  rcases hcl : a.clip_layer with _ | n
  · rw [hcl] at hrun
    simp only [Except.ok.injEq] at hrun
    rw [hrun]
  · rw [hcl] at hrun
    rcases hl : findNode g "CLIPSetLastLayer" with _ | p
    · rw [hl] at hrun
      simp at hrun
    · rw [hl] at hrun
      simp only [Except.ok.injEq] at hrun
      rw [← hrun]
      exact dkeys_dset_of_some _ (dget_of_findNode hnd hl)

/-- A full successful patch run keeps the node key list duplicate free. -/
theorem mainPatch_nodup {a : Args} {w : World} {pt nt : String} {g : Graph}
    {evs : List Ev} {g5 : Graph}
    (hnd : (dkeys g).Nodup)
    (hrun : mainPatch a w pt nt g = (evs, .ok g5)) : (dkeys g5).Nodup := by
  unfold mainPatch at hrun
  rcases htp : textPhase a pt nt g with e | g1
  · rw [htp] at hrun
    simp at hrun
  · rw [htp] at hrun
    simp only [] at hrun
    have hnd1 : (dkeys g1).Nodup := by
      rw [textPhase_dkeys htp]
      exact hnd
    rcases hlp : loraPhase a g1 with e | g2
    · rw [hlp] at hrun
      simp at hrun
    · rw [hlp] at hrun
      simp only [] at hrun
      have hnd2 : (dkeys g2).Nodup := by
        rw [loraPhase_dkeys hnd1 hlp]
        exact hnd1
      rcases hcp : clipPhase a g2 with e | g3
      · rw [hcp] at hrun
        simp at hrun
      · rw [hcp] at hrun
        simp only [] at hrun
        have hnd3 : (dkeys g3).Nodup := by
          rw [clipPhase_dkeys hnd2 hcp]
          exact hnd2
        rcases hcn : controlnetPhase a w g3 with ⟨evs1, w1, r4⟩
        rw [hcn] at hrun
        rcases r4 with e | g4
        · simp at hrun
        · simp only [] at hrun
          have hnd4 : (dkeys g4).Nodup := by
            rcases controlnetPhase_spec hnd3 hcn with ⟨_, hg, _⟩ | hfacts
            · rw [hg]
              exact hnd3
            · obtain ⟨_, _, _, _, _, _, _, _, _, _, _, _, _, _, _, _, _, _, _, _, _, hnd4, _⟩ := hfacts
              exact hnd4
          rcases hip : ipadapterPhase a w1 g4 with ⟨evs2, w2, r5⟩
          rw [hip] at hrun
          rcases r5 with e | g5b
          · simp at hrun
          · simp only [Prod.mk.injEq, Except.ok.injEq] at hrun
            obtain ⟨_, hg5⟩ := hrun
            rw [← hg5]
            exact (ipadapterPhase_spec hnd4 hip).1

/-!
## Claim C6: node id allocation
-/

/-- C6: node id allocation returns max(existing ids) + 1 and reserves it
immediately, so an allocated id never equals an id already present nor one
allocated earlier; a full patch run in which both optional branches may
allocate keeps the id list duplicate free; and a graph with ids {1, 3} yields
4 and then 5. -/
theorem next_id_fresh_monotonic :
    (∀ ids : List Nat, (nextId ids).1 = maxKey ids + 1 ∧ (nextId ids).1 ∉ ids ∧
      (nextId ids).2 = ids ++ [(nextId ids).1]) ∧
    (∀ (a : Args) (w : World) (pt nt : String) (g : Graph) (evs : List Ev) (g5 : Graph),
      (dkeys g).Nodup → mainPatch a w pt nt g = (evs, .ok g5) → (dkeys g5).Nodup) ∧
    (nextId [1, 3]).1 = 4 ∧ (nextId (nextId [1, 3]).2).1 = 5 := by
  refine ⟨?_, ?_, by decide, by decide⟩
  · intro ids
    exact ⟨rfl, maxKey_succ_not_mem ids, rfl⟩
  · intro a w pt nt g evs g5 hnd hrun
    exact mainPatch_nodup hnd hrun

/-- Witness for C6 at a concrete successful run. -/
theorem next_id_fresh_monotonic_witness :
    (dkeys (dset (dset plainG 6 { class_type := "CLIPTextEncode", inputs := dset [("text", Val.str ""), ("clip", Val.ref 1 0)] "text" (Val.str "P") }) 7 { class_type := "CLIPTextEncode", inputs := dset [("text", Val.str "")] "text" (Val.str "N") })).Nodup :=
  next_id_fresh_monotonic.2.1 {} ⟨[]⟩ "P" "N" plainG [Ev.writeWorkflow]
    (dset (dset plainG 6 { class_type := "CLIPTextEncode", inputs := dset [("text", Val.str ""), ("clip", Val.ref 1 0)] "text" (Val.str "P") }) 7 { class_type := "CLIPTextEncode", inputs := dset [("text", Val.str "")] "text" (Val.str "N") })
    (by decide) (by rfl)

/-!
## Claim C4: upsert input merging
-/

/-- C4 as amended: the ControlNet branch upserts shallow merge, so on the
conditioning applier node every input key not named in the update keeps its
previous value; the IPAdapter unified loader upsert however replaces the
whole input mapping of a found node with exactly the model reference and
preset pair, dropping input keys not named in the update; and the advanced
conditioning upsert replaces the found node's whole input mapping the same
way, with exactly the nine update keys. -/
theorem upsert_merge_and_replace :
    (∀ (a : Args) (w : World) (g : Graph) (evs : List Ev) (w1 : World) (g1 : Graph)
       (p : Nat × WNode) (k : String) (v : Val),
      (dkeys g).Nodup → controlnetPhase a w g = (evs, w1, .ok g1) →
      a.add_controlnet = true →
      findNode g "ControlNetApplyAdvanced" = some p → dget p.2.inputs k = some v →
      k ∉ ["positive", "negative", "control_net", "image", "strength", "start_percent", "end_percent"] →
      ∃ n1, dget g1 p.1 = some n1 ∧ dget n1.inputs k = some v) ∧
    (∀ (a : Args) (w : World) (g : Graph) (evs : List Ev) (w1 : World) (g1 : Graph)
       (p lp : Nat × WNode),
      (dkeys g).Nodup → ipadapterPhase a w g = (evs, w1, .ok g1) →
      a.add_ipadapter = true →
      findNode g (if a.ipadapter_community then "IPAdapterUnifiedLoaderCommunity" else "IPAdapterUnifiedLoader") = some p →
      findNode g "LoraLoader" = some lp →
      dget g1 p.1 = some { class_type := p.2.class_type, inputs := [("model", Val.ref lp.1 0), ("preset", Val.str (if a.ipadapter_community then a.ipadapter_community_preset else a.ipadapter_preset))], extra := p.2.extra }) ∧
    (∀ (a : Args) (w : World) (g : Graph) (evs : List Ev) (w1 : World) (g1 : Graph)
       (q : Nat × WNode),
      (dkeys g).Nodup → ipadapterPhase a w g = (evs, w1, .ok g1) →
      a.add_ipadapter = true →
      findNode g "IPAdapterAdvanced" = some q →
      ∃ lid iid, dget g1 q.1 = some { class_type := q.2.class_type, inputs := ipaAdvKvs a lid iid, extra := q.2.extra }) := by
  refine ⟨?_, ?_, ?_⟩
  · intro a w g evs w1 g1 p k v hnd hrun hadd hp hv hk
    rcases controlnetPhase_spec hnd hrun with ⟨hf, _, _⟩ | hfacts
    · rw [hadd] at hf
      exact Bool.noConfusion hf
    · obtain ⟨cid, iid, aid, sid, lN, iN, aN, sN, _, _, _, _, _, _, _, haget, _, _, _, _, _, _, _, _, hframe, _, _⟩ := hfacts
      obtain ⟨haid, hkeep⟩ := hframe p hp
      refine ⟨aN, ?_, ?_⟩
      · rw [haid] at haget
        exact haget
      · rw [hkeep k ?_]
        · exact hv
        · intro kv hkv hc
          have hkm : kv.1 ∈ ["positive", "negative", "control_net", "image", "strength", "start_percent", "end_percent"] := by
            simp only [cnApplyKvs] at hkv
            fin_cases hkv <;> simp
          rw [hc] at hkm
          exact hk hkm
  · intro a w g evs w1 g1 p lp hnd hrun hadd hp hlp
    exact (ipadapterPhase_spec hnd hrun).2.1 hadd p lp hp hlp
  · intro a w g evs w1 g1 q hnd hrun hadd hq
    exact (ipadapterPhase_spec hnd hrun).2.2 hadd q hq

/-- A graph in which the unified loader node and the advanced conditioning
node each carry an extra input key. -/
def ipaG : Graph :=
  [(1, { class_type := "LoraLoader", inputs := [] }),
   (2, { class_type := "IPAdapterUnifiedLoader", inputs := [("extra_key", Val.other 9), ("model", Val.ref 1 0)] }),
   (3, { class_type := "IPAdapterAdvanced", inputs := [("adv_extra", Val.other 7)] }),
   (4, { class_type := "KSampler", inputs := [] })]

/-- Arguments requesting only the IPAdapter insertion. -/
def ipaArgs : Args :=
  { add_ipadapter := true, ipadapter_image := some "img",
    ipadapter_weight := 1, ipadapter_start := 0, ipadapter_end := 1 }

/-- C4 counterexample: the claim says every upsert preserves input keys not
named in the update, in particular on the IPAdapter unified loader node and
on the advanced conditioning node.  At this concrete input the loader node
enters with an input key extra_key and the advanced node with an input key
adv_extra, the branch succeeds, and neither patched node carries its key any
more: both input mappings were replaced, not merged. -/
theorem upsert_replace_counterexample :
    ((ipadapterPhase ipaArgs ⟨["img"]⟩ ipaG).2.2.map
      (fun g => ((dget g 2).map (fun n => dget n.inputs "extra_key"),
                 (dget g 3).map (fun n => dget n.inputs "adv_extra")))) =
      Except.ok (some none, some none) := by decide

/-- Witness for the amended C4 at a concrete input: the loader node is left
with exactly the model and preset inputs, and the advanced node with exactly
the nine update inputs. -/
theorem upsert_merge_and_replace_witness :
    dget ((ipadapterPhase ipaArgs ⟨["img"]⟩ ipaG).2.2.toOption.iget) 2 =
      some { class_type := "IPAdapterUnifiedLoader", inputs := [("model", Val.ref 1 0), ("preset", Val.str "PLUS (high strength)")], extra := 0 } ∧
    (∃ lid iid, dget ((ipadapterPhase ipaArgs ⟨["img"]⟩ ipaG).2.2.toOption.iget) 3 =
      some { class_type := "IPAdapterAdvanced", inputs := ipaAdvKvs ipaArgs lid iid, extra := 0 }) :=
  ⟨upsert_merge_and_replace.2.1 ipaArgs ⟨["img"]⟩ ipaG
     (ipadapterPhase ipaArgs ⟨["img"]⟩ ipaG).1
     (ipadapterPhase ipaArgs ⟨["img"]⟩ ipaG).2.1
     ((ipadapterPhase ipaArgs ⟨["img"]⟩ ipaG).2.2.toOption.iget)
     (2, { class_type := "IPAdapterUnifiedLoader", inputs := [("extra_key", Val.other 9), ("model", Val.ref 1 0)], extra := 0 })
     (1, { class_type := "LoraLoader", inputs := [], extra := 0 })
     (by decide) (by rfl) (by decide) (by decide) (by decide),
   upsert_merge_and_replace.2.2 ipaArgs ⟨["img"]⟩ ipaG
     (ipadapterPhase ipaArgs ⟨["img"]⟩ ipaG).1
     (ipadapterPhase ipaArgs ⟨["img"]⟩ ipaG).2.1
     ((ipadapterPhase ipaArgs ⟨["img"]⟩ ipaG).2.2.toOption.iget)
     (3, { class_type := "IPAdapterAdvanced", inputs := [("adv_extra", Val.other 7)], extra := 0 })
     (by decide) (by rfl) (by decide) (by decide)⟩

/-!
## Claim C3: idempotence of the ControlNet insertion
-/

/-- C3: applying the ControlNet insertion twice in succession with identical
parameters yields a graph identical to applying it once: on the second
application each of the three role nodes is found and updated in place with
the values it already carries, no new node is created, and the sampler
rewiring is unchanged, so the second run returns exactly the graph produced
by the first. -/
theorem controlnet_insertion_idempotent :
    ∀ (a : Args) (w : World) (g : Graph) (evs : List Ev) (w1 : World) (g1 : Graph),
    (dkeys g).Nodup → controlnetPhase a w g = (evs, w1, .ok g1) →
    (controlnetPhase a w1 g1).2.2 = .ok g1 := by
  intro a w g evs w1 g1 hnd hrun
  rcases controlnetPhase_spec hnd hrun with ⟨hadd, hg, hw⟩ | hfacts
  · unfold controlnetPhase
    rw [if_pos hadd]
  · obtain ⟨cid, iid, aid, sid, lN, iN, aN, sN, c1, c2, c3, c4, c5, c6, c7, c8, c9, c10, c11,
      c12, c13, c14, c15, c16, c17, c18, c19⟩ := hfacts
    unfold controlnetPhase
    rw [c18]
    simp only [Bool.true_eq_false, if_false]
    rw [c19]
    simp only [Bool.true_eq_false, if_false]
    have hidem1 : cnUpsert g1 (dkeys g1) (findNode g1 "ControlNetLoader") "ControlNetLoader"
        [("control_net_name", Val.str (a.controlnet.getD ""))] = (cid, g1, dkeys g1) := by
      rw [show (cid, lN) = (cid, lN) from rfl] at c1
      refine cnUpsert_idem c1 c2 ?_
      intro kv hkv
      simp at hkv
      rw [hkv]
      exact c3
    rw [hidem1]
    simp only []
    have hmem1 : (a.control_image.getD "") ∈ w1.files := c15 _ c16
    rw [decide_eq_true hmem1]
    simp only [Bool.true_eq_false, if_false]
    have hidem2 : cnUpsert g1 (dkeys g1) (findNode g1 "LoadImage") "LoadImage"
        [("image", Val.str (baseName (a.control_image.getD "")))] = (iid, g1, dkeys g1) := by
      refine cnUpsert_idem c4 c5 ?_
      intro kv hkv
      simp at hkv
      rw [hkv]
      exact c6
    rw [hidem2]
    simp only []
    have hidem3 : cnUpsert g1 (dkeys g1) (findNode g1 "ControlNetApplyAdvanced")
        "ControlNetApplyAdvanced" (cnApplyKvs a cid iid) = (aid, g1, dkeys g1) := by
      refine cnUpsert_idem c7 c8 ?_
      exact c9
    rw [hidem3]
    simp only []
    rw [c10]
    simp only []
    rw [dsetMany_id ?hin]
    case hin =>
      intro kv hkv
      rcases List.mem_cons.mp hkv with rfl | hkv2
      · exact c12
      · rcases List.mem_singleton.mp hkv2 with rfl
        exact c13
    rw [show ({ class_type := sN.class_type, inputs := sN.inputs, extra := sN.extra } : WNode) = sN from rfl]
    rw [dset_id c11]

/-- Arguments requesting the ControlNet insertion. -/
def cnArgs : Args :=
  { add_controlnet := true, controlnet := some "cn", control_image := some "img",
    control_strength := 1 }

/-- A one sampler graph for the ControlNet insertion. -/
def cnG : Graph := [(1, { class_type := "KSampler", inputs := [("model", Val.ref 9 0)] })]

/-- The graph produced by one ControlNet insertion into cnG. -/
def cnG1 : Graph :=
  [(1, { class_type := "KSampler", inputs := [("model", Val.ref 9 0), ("positive", Val.ref 4 0), ("negative", Val.ref 4 1)] }),
   (2, { class_type := "ControlNetLoader", inputs := [("control_net_name", Val.str "cn")] }),
   (3, { class_type := "LoadImage", inputs := [("image", Val.str "img")] }),
   (4, { class_type := "ControlNetApplyAdvanced", inputs := [("positive", Val.ref 6 0), ("negative", Val.ref 7 0), ("control_net", Val.ref 2 0), ("image", Val.ref 3 0), ("strength", Val.num 1), ("start_percent", Val.num 0), ("end_percent", Val.num 1)] })]

/-- Witness for C3 at a concrete input. -/
theorem controlnet_insertion_idempotent_witness :
    (controlnetPhase cnArgs ⟨["img", "input/img"]⟩ cnG1).2.2 = .ok cnG1 :=
  controlnet_insertion_idempotent cnArgs ⟨["img"]⟩ cnG
    [Ev.mkdirInput, Ev.copyImage "img" "input/img"] ⟨["img", "input/img"]⟩ cnG1
    (by decide) (by rfl)

/-!
## Claim C9: missing ControlNet arguments abort the run
-/

/-- C9: when the ControlNet insertion is requested but the control net model
name or the reference image argument is missing (absent or empty), the run
stops with the missing argument error and an empty file event trace, before
any file is touched and before the workflow document could be written; when
both arguments are given but the reference image does not exist on disk, the
run stops with the file not found error for that image. -/
theorem controlnet_argument_errors :
    ∀ (a : Args) (w : World) (pt nt : String) (g g1 g2 g3 : Graph),
    textPhase a pt nt g = .ok g1 → loraPhase a g1 = .ok g2 → clipPhase a g2 = .ok g3 →
    a.add_controlnet = true →
    ((truthyS a.controlnet && truthyS a.control_image) = false →
      mainPatch a w pt nt g = ([], .error (.missingArgument "--add-controlnet requires --controlnet and --control-image"))) ∧
    (∀ ci, a.control_image = some ci → ci ∉ w.files →
      (truthyS a.controlnet && truthyS a.control_image) = true →
      (mainPatch a w pt nt g).2 = .error (.fileNotFound ci)) := by
  intro a w pt nt g g1 g2 g3 htp hlp hcp hadd
  have hred : ∀ r : List Ev × World × Except Err Graph, controlnetPhase a w g3 = r →
      mainPatch a w pt nt g = (match r with
        | (evs, _, .error e) => (evs, .error e)
        | (evs, w1, .ok g4) =>
          (match ipadapterPhase a w1 g4 with
           | (evs2, _, .error e) => (evs ++ evs2, .error e)
           | (evs2, _, .ok g5) => (evs ++ evs2 ++ [.writeWorkflow], .ok g5))) := by
    intro r hr
    unfold mainPatch
    rw [htp]
    simp only []
    rw [hlp]
    simp only []
    rw [hcp]
    simp only []
    rw [hr]
  constructor
  · intro harg
    have hcn : controlnetPhase a w g3 =
        ([], w, .error (.missingArgument "--add-controlnet requires --controlnet and --control-image")) := by
      unfold controlnetPhase
      rw [if_neg (by rw [hadd]; simp), if_pos harg]
    rw [hred _ hcn]
  · intro ci hci hnm hargT
    have hcn : controlnetPhase a w g3 = ([Ev.mkdirInput], w, .error (.fileNotFound ci)) := by
      unfold controlnetPhase
      rw [if_neg (by rw [hadd]; simp), if_neg (by rw [hargT]; simp)]
      simp only [hci, Option.getD_some]
      rw [if_pos]
      exact decide_eq_false hnm
    rw [hred _ hcn]

/-- Arguments requesting the ControlNet insertion with no model or image. -/
def cnBareArgs : Args := { add_controlnet := true }

/-- Witness for C9 at a concrete input. -/
theorem controlnet_argument_errors_witness :
    mainPatch cnBareArgs ⟨[]⟩ "P" "N" plainG =
      ([], .error (.missingArgument "--add-controlnet requires --controlnet and --control-image")) :=
  (controlnet_argument_errors cnBareArgs ⟨[]⟩ "P" "N" plainG
    (dset (dset plainG 6 { class_type := "CLIPTextEncode", inputs := dset [("text", Val.str ""), ("clip", Val.ref 1 0)] "text" (Val.str "P") }) 7 { class_type := "CLIPTextEncode", inputs := dset [("text", Val.str "")] "text" (Val.str "N") })
    (dset (dset plainG 6 { class_type := "CLIPTextEncode", inputs := dset [("text", Val.str ""), ("clip", Val.ref 1 0)] "text" (Val.str "P") }) 7 { class_type := "CLIPTextEncode", inputs := dset [("text", Val.str "")] "text" (Val.str "N") })
    (dset (dset plainG 6 { class_type := "CLIPTextEncode", inputs := dset [("text", Val.str ""), ("clip", Val.ref 1 0)] "text" (Val.str "P") }) 7 { class_type := "CLIPTextEncode", inputs := dset [("text", Val.str "")] "text" (Val.str "N") })
    (by rfl) (by rfl) (by rfl) rfl).1 rfl

/-!
## Pool merge lemmas (towards claim C7)
-/

theorem mergeSecComb_mono {adds : SecMap} :
    ∀ {cs : SecMap} {key : String} {l : List String}, dget cs key = some l →
    ∃ t, dget (mergeSecComb cs adds) key = some (l ++ t) ∧ ∀ x ∈ t, x ∉ l := by
  induction adds with
  | nil =>
    intro cs key l h
    exact ⟨[], by simp [mergeSecComb, h], by simp⟩
  | cons kv rest ih =>
    intro cs key l h
    show ∃ t, dget (mergeSecComb (dset cs kv.1 (mergeValues (dgetD cs kv.1 []) kv.2)) rest) key = some (l ++ t) ∧ ∀ x ∈ t, x ∉ l
    by_cases hk : kv.1 = key
    · subst hk
      rw [show dgetD cs kv.1 [] = l from by rw [dgetD, h]; rfl]
      obtain ⟨t0, ht0, hn0⟩ := mergeValues_append l kv.2
      rw [ht0]
      obtain ⟨t1, ht1, hn1⟩ := ih (dget_dset_self cs kv.1 (l ++ t0))
      refine ⟨t0 ++ t1, ?_, ?_⟩
      · rw [ht1, List.append_assoc]
      · intro x hx
        rcases List.mem_append.mp hx with h1 | h2
        · exact (hn0 x h1).2
        · intro hc
          exact hn1 x h2 (List.mem_append.mpr (Or.inl hc))
    · have hne : key ≠ kv.1 := fun hc => hk hc.symm
      exact ih (by rw [dget_dset_ne _ _ hne]; exact h)

theorem mergeSecComb_est {adds : SecMap} :
    ∀ {cs : SecMap} {kv : String × List String}, kv ∈ adds →
    ∃ l, dget (mergeSecComb cs adds) kv.1 = some l ∧ ∀ v ∈ kv.2, v ∈ l := by
  induction adds with
  | nil =>
    intro cs kv h
    simp at h
  | cons kv0 rest ih =>
    intro cs kv h
    show ∃ l, dget (mergeSecComb (dset cs kv0.1 (mergeValues (dgetD cs kv0.1 []) kv0.2)) rest) kv.1 = some l ∧ ∀ v ∈ kv.2, v ∈ l
    rcases List.mem_cons.mp h with h1 | h2
    · subst h1
      obtain ⟨t, ht, _⟩ := mergeSecComb_mono (dget_dset_self cs kv.1 (mergeValues (dgetD cs kv.1 []) kv.2))
      refine ⟨_, ht, ?_⟩
      intro v hv
      exact List.mem_append.mpr (Or.inl (mem_mergeValues_left hv))
    · exact ih h2

/-- The inner mode map monotonicity relation for the sources table. -/
def mmLe (mm mm2 : List (String × List String)) : Prop :=
  ∀ m0 ml, dget mm m0 = some ml → ∃ ml2, dget mm2 m0 = some ml2 ∧ ∀ v ∈ ml, v ∈ ml2

theorem mmLe_refl (mm : List (String × List String)) : mmLe mm mm :=
  fun m0 ml h => ⟨ml, h, fun v hv => hv⟩

theorem mergeSecSrc_mono {adds : SecMap} {mode : String} :
    ∀ {ss : List (String × List (String × List String))} {key : String} {mm : List (String × List String)},
    dget ss key = some mm →
    ∃ mm2, dget (mergeSecSrc ss adds mode) key = some mm2 ∧ mmLe mm mm2 := by
  induction adds with
  | nil =>
    intro ss key mm h
    exact ⟨mm, h, mmLe_refl mm⟩
  | cons kv rest ih =>
    intro ss key mm h
    show ∃ mm2, dget (mergeSecSrc (dset ss kv.1 (dset (dgetD ss kv.1 []) mode (mergeValues (dgetD (dgetD ss kv.1 []) mode []) kv.2))) rest mode) key = some mm2 ∧ mmLe mm mm2
    by_cases hk : kv.1 = key
    · subst hk
      rw [show dgetD ss kv.1 [] = mm from by rw [dgetD, h]; rfl]
      obtain ⟨mm2, hmm2, hle⟩ := ih (dget_dset_self ss kv.1 (dset mm mode (mergeValues (dgetD mm mode []) kv.2)))
      refine ⟨mm2, hmm2, ?_⟩
      intro m0 ml hml
      by_cases hm0 : m0 = mode
      · subst hm0
        have hstep : dget (dset mm m0 (mergeValues (dgetD mm m0 []) kv.2)) m0 = some (mergeValues ml kv.2) := by
          rw [show dgetD mm m0 [] = ml from by rw [dgetD, hml]; rfl]
          exact dget_dset_self _ _ _
        obtain ⟨ml2, hml2, hsub⟩ := hle m0 _ hstep
        exact ⟨ml2, hml2, fun v hv => hsub v (mem_mergeValues_right _ hv)⟩
      · have hstep : dget (dset mm mode (mergeValues (dgetD mm mode []) kv.2)) m0 = some ml := by
          rw [dget_dset_ne _ _ hm0]
          exact hml
        exact hle m0 ml hstep
    · have hne : key ≠ kv.1 := fun hc => hk hc.symm
      exact ih (by rw [dget_dset_ne _ _ hne]; exact h)

theorem mergeSecSrc_est {adds : SecMap} {mode : String} :
    ∀ {ss : List (String × List (String × List String))} {kv : String × List String}, kv ∈ adds →
    ∃ mm ml, dget (mergeSecSrc ss adds mode) kv.1 = some mm ∧ dget mm mode = some ml ∧ ∀ v ∈ kv.2, v ∈ ml := by
  induction adds with
  | nil =>
    intro ss kv h
    simp at h
  | cons kv0 rest ih =>
    intro ss kv h
    show ∃ mm ml, dget (mergeSecSrc (dset ss kv0.1 (dset (dgetD ss kv0.1 []) mode (mergeValues (dgetD (dgetD ss kv0.1 []) mode []) kv0.2))) rest mode) kv.1 = some mm ∧ dget mm mode = some ml ∧ ∀ v ∈ kv.2, v ∈ ml
    rcases List.mem_cons.mp h with h1 | h2
    · subst h1
      obtain ⟨mm2, hmm2, hle⟩ := mergeSecSrc_mono (dget_dset_self ss kv.1 (dset (dgetD ss kv.1 []) mode (mergeValues (dgetD (dgetD ss kv.1 []) mode []) kv.2)))
      obtain ⟨ml2, hml2, hsub⟩ := hle mode _ (dget_dset_self _ _ _)
      refine ⟨mm2, ml2, hmm2, hml2, ?_⟩
      intro v hv
      exact hsub v (mem_mergeValues_left hv)
    · exact ih h2

theorem mergeSecComb_id {adds : SecMap} :
    ∀ {cs : SecMap}, (∀ kv ∈ adds, ∃ l, dget cs kv.1 = some l ∧ ∀ v ∈ kv.2, v ∈ l) →
    mergeSecComb cs adds = cs := by
  induction adds with
  | nil =>
    intro cs _
    rfl
  | cons kv rest ih =>
    intro cs h
    obtain ⟨l, hl, hsub⟩ := h kv (List.mem_cons_self _ _)
    show mergeSecComb (dset cs kv.1 (mergeValues (dgetD cs kv.1 []) kv.2)) rest = cs
    rw [show dgetD cs kv.1 [] = l from by rw [dgetD, hl]; rfl]
    rw [mergeValues_id hsub, dset_id hl]
    exact ih fun kv2 h2 => h kv2 (List.mem_cons_of_mem _ h2)

theorem mergeSecSrc_id {adds : SecMap} {mode : String} :
    ∀ {ss : List (String × List (String × List String))},
    (∀ kv ∈ adds, ∃ mm ml, dget ss kv.1 = some mm ∧ dget mm mode = some ml ∧ ∀ v ∈ kv.2, v ∈ ml) →
    mergeSecSrc ss adds mode = ss := by
  induction adds with
  | nil =>
    intro ss _
    rfl
  | cons kv rest ih =>
    intro ss h
    obtain ⟨mm, ml, hmm, hml, hsub⟩ := h kv (List.mem_cons_self _ _)
    show mergeSecSrc (dset ss kv.1 (dset (dgetD ss kv.1 []) mode (mergeValues (dgetD (dgetD ss kv.1 []) mode []) kv.2))) rest mode = ss
    rw [show dgetD ss kv.1 [] = mm from by rw [dgetD, hmm]; rfl]
    rw [show dgetD mm mode [] = ml from by rw [dgetD, hml]; rfl]
    rw [mergeValues_id hsub, dset_id hml, dset_id hmm]
    exact ih fun kv2 h2 => h kv2 (List.mem_cons_of_mem _ h2)

/-- One mode of the pool document fully contained in the merged state: every
section of the mode data is present, every subcategory of it carries all of
the mode's tokens in the combined pool, and the provenance table records them
all under the mode name. -/
def modeSubsumed (st : MergeSt) (m : String) (msecs : CombMap) : Prop :=
  ∀ sv ∈ msecs,
    (∃ cs, dget st.comb sv.1 = some cs ∧
      ∀ kv ∈ sv.2, ∃ l, dget cs kv.1 = some l ∧ ∀ v ∈ kv.2, v ∈ l) ∧
    (∃ ss, dget st.srcs sv.1 = some ss ∧
      ∀ kv ∈ sv.2, ∃ mm ml, dget ss kv.1 = some mm ∧ dget mm m = some ml ∧ ∀ v ∈ kv.2, v ∈ ml)

theorem mergeSection_id {st : MergeSt} {sname : String} {adds : SecMap} {mode : String}
    (hc : ∃ cs, dget st.comb sname = some cs ∧
      ∀ kv ∈ adds, ∃ l, dget cs kv.1 = some l ∧ ∀ v ∈ kv.2, v ∈ l)
    (hs : ∃ ss, dget st.srcs sname = some ss ∧
      ∀ kv ∈ adds, ∃ mm ml, dget ss kv.1 = some mm ∧ dget mm mode = some ml ∧ ∀ v ∈ kv.2, v ∈ ml) :
    mergeSection st sname adds mode = st := by
  obtain ⟨cs, hcs, hckv⟩ := hc
  obtain ⟨ss, hss, hskv⟩ := hs
  unfold mergeSection
  rw [show dgetD st.comb sname [] = cs from by rw [dgetD, hcs]; rfl]
  rw [show dgetD st.srcs sname [] = ss from by rw [dgetD, hss]; rfl]
  rw [mergeSecComb_id hckv, mergeSecSrc_id hskv, dset_id hcs, dset_id hss]

theorem mergeSection_pres_comb {st : MergeSt} (s2 : String) (adds : SecMap) (mode : String)
    {sname : String} {cs : SecMap}
    (h1 : dget st.comb sname = some cs) :
    ∃ cs2, dget (mergeSection st s2 adds mode).comb sname = some cs2 ∧
      ∀ key l, dget cs key = some l → ∃ t, dget cs2 key = some (l ++ t) ∧ ∀ x ∈ t, x ∉ l := by
  unfold mergeSection
  by_cases hs : s2 = sname
  · subst hs
    rw [show dgetD st.comb s2 [] = cs from by rw [dgetD, h1]; rfl]
    refine ⟨_, dget_dset_self _ _ _, ?_⟩
    intro key l h2
    exact mergeSecComb_mono h2
  · have hne : sname ≠ s2 := fun hc => hs hc.symm
    refine ⟨cs, ?_, ?_⟩
    · show dget (dset st.comb s2 _) sname = some cs
      rw [dget_dset_ne _ _ hne]
      exact h1
    · intro key l h2
      exact ⟨[], by simp [h2], by simp⟩

theorem mergeSection_pres_src {st : MergeSt} (s2 : String) (adds : SecMap) (mode : String)
    {sname : String} {ss : List (String × List (String × List String))}
    (h1 : dget st.srcs sname = some ss) :
    ∃ ss2, dget (mergeSection st s2 adds mode).srcs sname = some ss2 ∧
      ∀ key mm, dget ss key = some mm → ∃ mm2, dget ss2 key = some mm2 ∧ mmLe mm mm2 := by
  unfold mergeSection
  by_cases hs : s2 = sname
  · subst hs
    rw [show dgetD st.srcs s2 [] = ss from by rw [dgetD, h1]; rfl]
    refine ⟨_, dget_dset_self _ _ _, ?_⟩
    intro key mm h2
    exact mergeSecSrc_mono h2
  · have hne : sname ≠ s2 := fun hc => hs hc.symm
    refine ⟨ss, ?_, ?_⟩
    · show dget (dset st.srcs s2 _) sname = some ss
      rw [dget_dset_ne _ _ hne]
      exact h1
    · intro key mm h2
      exact ⟨mm, h2, mmLe_refl mm⟩

theorem mergeSection_subsumed {st : MergeSt} {s2 : String} {adds : SecMap} {mode m : String}
    {msecs : CombMap} (h : modeSubsumed st m msecs) :
    modeSubsumed (mergeSection st s2 adds mode) m msecs := by
  intro sv hsv
  obtain ⟨⟨cs, hcs, hckv⟩, ⟨ss, hss, hskv⟩⟩ := h sv hsv
  constructor
  · obtain ⟨cs2, hcs2, hkeys⟩ := mergeSection_pres_comb s2 adds mode hcs
    refine ⟨cs2, hcs2, ?_⟩
    intro kv hkv
    obtain ⟨l, hl, hsub⟩ := hckv kv hkv
    obtain ⟨t, ht, _⟩ := hkeys kv.1 l hl
    exact ⟨l ++ t, ht, fun v hv => List.mem_append.mpr (Or.inl (hsub v hv))⟩
  · obtain ⟨ss2, hss2, hkeys⟩ := mergeSection_pres_src s2 adds mode hss
    refine ⟨ss2, hss2, ?_⟩
    intro kv hkv
    obtain ⟨mm, ml, hmm, hml, hsub⟩ := hskv kv hkv
    obtain ⟨mm2, hmm2, hle⟩ := hkeys kv.1 mm hmm
    obtain ⟨ml2, hml2, hsub2⟩ := hle m ml hml
    exact ⟨mm2, ml2, hmm2, hml2, fun v hv => hsub2 v (hsub v hv)⟩

theorem mergeMode_pres_subsumed {mode m : String} {msecs : CombMap} {msecs2 : CombMap} :
    ∀ {st : MergeSt}, modeSubsumed st m msecs →
    modeSubsumed (mergeMode st mode msecs2) m msecs := by
  induction msecs2 with
  | nil =>
    intro st h
    exact h
  | cons sv rest ih =>
    intro st h
    show modeSubsumed (mergeMode (mergeSection st sv.1 sv.2 mode) mode rest) m msecs
    exact ih (mergeSection_subsumed h)

theorem mergeMode_est {m : String} {msecs : CombMap} :
    ∀ {st : MergeSt}, modeSubsumed (mergeMode st m msecs) m msecs := by
  induction msecs with
  | nil =>
    intro st sv hsv
    simp at hsv
  | cons sv0 rest ih =>
    intro st sv hsv
    have hhead : modeSubsumed (mergeSection st sv0.1 sv0.2 m) m [sv0] := by
      intro sv2 hsv2
      have he : sv2 = sv0 := List.mem_singleton.mp hsv2
      subst he
      refine ⟨⟨mergeSecComb (dgetD st.comb sv2.1 []) sv2.2, ?_, ?_⟩,
              ⟨mergeSecSrc (dgetD st.srcs sv2.1 []) sv2.2 m, ?_, ?_⟩⟩
      · exact dget_dset_self _ _ _
      · intro kv hkv
        exact mergeSecComb_est hkv
      · exact dget_dset_self _ _ _
      · intro kv hkv
        exact mergeSecSrc_est hkv
    rcases List.mem_cons.mp hsv with h1 | h2
    · subst h1
      exact mergeMode_pres_subsumed hhead sv (List.mem_singleton.mpr rfl)
    · exact ih sv h2

theorem mergeMode_id {m : String} {msecs : CombMap} :
    ∀ {st : MergeSt}, modeSubsumed st m msecs → mergeMode st m msecs = st := by
  induction msecs with
  | nil =>
    intro st _
    rfl
  | cons sv0 rest ih =>
    intro st h
    obtain ⟨hc, hs⟩ := h sv0 (List.mem_cons_self _ _)
    show mergeMode (mergeSection st sv0.1 sv0.2 m) m rest = st
    rw [mergeSection_id hc hs]
    exact ih fun sv hsv => h sv (List.mem_cons_of_mem _ hsv)

theorem mergeModes_elim {sets : ModeSets} {m : String} {msecs : CombMap}
    (hm : dget sets m = some msecs) :
    ∀ (ms2 ms3 : List String) (st : MergeSt), modeSubsumed st m msecs →
    mergeModes sets (ms2 ++ m :: ms3) st = mergeModes sets (ms2 ++ ms3) st := by
  intro ms2
  induction ms2 with
  | nil =>
    intro ms3 st hsub
    show mergeModes sets (m :: ms3) st = mergeModes sets ms3 st
    simp only [mergeModes, hm]
    rw [mergeMode_id hsub]
  | cons m2 rest ih =>
    intro ms3 st hsub
    simp only [List.cons_append, mergeModes]
    cases hm2 : dget sets m2 with
    | none => rfl
    | some msecs2 => exact ih ms3 (mergeMode st m2 msecs2) (mergeMode_pres_subsumed hsub)

theorem mergeModes_idem {sets : ModeSets} :
    ∀ (ms1 ms2 ms3 : List String) (m : String) (st : MergeSt),
    mergeModes sets (ms1 ++ m :: (ms2 ++ m :: ms3)) st =
      mergeModes sets (ms1 ++ m :: (ms2 ++ ms3)) st := by
  intro ms1
  induction ms1 with
  | nil =>
    intro ms2 ms3 m st
    simp only [List.nil_append, mergeModes]
    cases hm : dget sets m with
    | none => rfl
    | some msecs => exact mergeModes_elim hm ms2 ms3 (mergeMode st m msecs) mergeMode_est
  | cons m1 rest ih =>
    intro ms2 ms3 m st
    simp only [List.cons_append, mergeModes]
    cases hm1 : dget sets m1 with
    | none => rfl
    | some msecs1 => exact ih ms2 ms3 m (mergeMode st m1 msecs1)

theorem mergeMode_mono_comb {mode : String} {msecs : CombMap} :
    ∀ {st : MergeSt} {sname key : String} {cs : SecMap} {l : List String},
    dget st.comb sname = some cs → dget cs key = some l →
    ∃ cs2 t, dget (mergeMode st mode msecs).comb sname = some cs2 ∧
      dget cs2 key = some (l ++ t) ∧ ∀ x ∈ t, x ∉ l := by
  induction msecs with
  | nil =>
    intro st sname key cs l h1 h2
    exact ⟨cs, [], h1, by simp [h2], by simp⟩
  | cons sv rest ih =>
    intro st sname key cs l h1 h2
    show ∃ cs2 t, dget (mergeMode (mergeSection st sv.1 sv.2 mode) mode rest).comb sname = some cs2 ∧
      dget cs2 key = some (l ++ t) ∧ ∀ x ∈ t, x ∉ l
    obtain ⟨cs1, hcs1, hkeys⟩ := mergeSection_pres_comb sv.1 sv.2 mode h1
    obtain ⟨t0, ht0, hn0⟩ := hkeys key l h2
    obtain ⟨cs2, t1, hcs2, ht1, hn1⟩ := ih hcs1 ht0
    refine ⟨cs2, t0 ++ t1, hcs2, ?_, ?_⟩
    · rw [ht1, List.append_assoc]
    · intro x hx
      rcases List.mem_append.mp hx with hx0 | hx1
      · exact hn0 x hx0
      · intro hc
        exact hn1 x hx1 (List.mem_append.mpr (Or.inl hc))

/-!
## Claim C7: pool merging is order-stable, duplicate free and idempotent
-/

theorem loadPools_cons (doc : PoolsDoc) (m : String) (rest : List String) :
    loadPools doc (m :: rest) =
      match mergeModes doc.sets (m :: rest) ⟨[], []⟩ with
      | .error e => .error e
      | .ok st =>
        .ok { combined := st.comb, sources := st.srcs,
              negative_base := doc.negative_base,
              negative_optional := doc.negative_optional,
              style_presets := doc.style_presets } := rfl

/-- C7: pool merging is order-stable and duplicate free.  First, listing a
blend mode a second time anywhere later in the mode list yields exactly the
same loaded pool as listing it once.  Second, a later mode can only append to
the value list a (section, subcategory) pair already carries, and everything
it appends was not present before, so the first mode to introduce a token
fixes its position.  Third, merging keeps a duplicate free value list
duplicate free. -/
theorem pool_merge_stable_idempotent :
    (∀ (doc : PoolsDoc) (ms1 ms2 ms3 : List String) (m : String),
      loadPools doc (ms1 ++ m :: (ms2 ++ m :: ms3)) =
        loadPools doc (ms1 ++ m :: (ms2 ++ ms3))) ∧
    (∀ (st : MergeSt) (mode : String) (msecs : CombMap) (sname key : String)
        (cs : SecMap) (l : List String),
      dget st.comb sname = some cs → dget cs key = some l →
      ∃ cs2 t, dget (mergeMode st mode msecs).comb sname = some cs2 ∧
        dget cs2 key = some (l ++ t) ∧ ∀ x ∈ t, x ∉ l) ∧
    (∀ (l vs : List String), l.Nodup → (mergeValues l vs).Nodup) := by
  refine ⟨?_, ?_, ?_⟩
  · intro doc ms1 ms2 ms3 m
    have hmm := @mergeModes_idem doc.sets ms1 ms2 ms3 m ⟨[], []⟩
    cases ms1 with
    | nil =>
      simp only [List.nil_append] at hmm ⊢
      rw [loadPools_cons, loadPools_cons, hmm]
    | cons a as =>
      simp only [List.cons_append] at hmm ⊢
      rw [loadPools_cons, loadPools_cons, hmm]
  · intro st mode msecs sname key cs l h1 h2
    exact mergeMode_mono_comb h1 h2
  · intro l vs h
    exact mergeValues_nodup vs h

/-- Witness for pool_merge_stable_idempotent: the mode list with a repeat
loads the same pool as the plain one, a second mode appends only the unseen
token behind the existing one, and a concrete merged list is duplicate
free. -/
theorem pool_merge_stable_idempotent_witness :
    (loadPools ⟨[("m", [("composition", [("q", ["a"])])])], ["x"], [], []⟩ ["m", "m"] =
       loadPools ⟨[("m", [("composition", [("q", ["a"])])])], ["x"], [], []⟩ ["m"]) ∧
    (∃ cs2 t,
      dget (mergeMode ⟨[("composition", [("q", ["a"])])], []⟩ "m"
          [("composition", [("q", ["b", "a"])])]).comb "composition" = some cs2 ∧
        dget cs2 "q" = some (["a"] ++ t) ∧ ∀ x ∈ t, x ∉ (["a"] : List String)) ∧
    (mergeValues ["a"] ["b", "a"]).Nodup :=
  ⟨pool_merge_stable_idempotent.1 ⟨[("m", [("composition", [("q", ["a"])])])], ["x"], [], []⟩
     [] [] [] "m",
   pool_merge_stable_idempotent.2.1 ⟨[("composition", [("q", ["a"])])], []⟩ "m"
     [("composition", [("q", ["b", "a"])])] "composition" "q" [("q", ["a"])] ["a"] rfl rfl,
   pool_merge_stable_idempotent.2.2 ["a"] ["b", "a"] (by decide)⟩
